import Mathlib

/-!
Shallow embedding of the inventory HTTP service (repository bc-2025-7).

The repository contains two near-duplicate Express applications:
  * `src/main.js` — the SQL-backed variant (MySQL table `items`), prefixed
    here with `sql`;
  * `src/unnamed/part_001` — the in-memory variant (array `devices` plus a
    counter `Id`), prefixed here with `mem`.

State is modelled as the list of item records, the next id that the
repository will assign (the volatile counter, resp. the AUTO_INCREMENT
value), and the set of files present in the upload directory (the blob
store), modelled as a list of paths.  Each route handler is translated into
a pure function from an abstract request to a response, a new state and a
trace of storage events, so that ordering claims (which side effect happens
first) can be stated.  The multer middleware, which writes the uploaded
file to disk before the handler body runs, is modelled as a state update
performed at the start of each handler that carries `upload.single`.
-/

namespace Inventory

/-- JSON scalar values appearing in the response bodies of the service. -/
inductive JVal
  | str (s : String)
  | num (n : Int)
  | jnull
deriving DecidableEq, Repr

/-- JSON object: an ordered list of key/value pairs, as built by the handlers. -/
abbrev JObj := List (String × JVal)

/-- Response body: plain text (res.end), a JSON object, a JSON array, a JSON
object wrapping another object under one key (the mem delete response), a
streamed file (res.sendFile), or an empty body. -/
inductive RBody
  | text (s : String)
  | json (o : JObj)
  | jsonArr (os : List JObj)
  | jsonUnder (k : String) (o : JObj)
  | fileStream (p : String)
  | emptyBody
deriving DecidableEq, Repr

/-- HTTP response: status code and body. -/
structure Response where
  status : Nat
  body : RBody
deriving DecidableEq, Repr

/-- Item record, as stored by both repository variants: src/unnamed/part_001
lines 97-102 and the table of src/unnamed/part_000.  `photo` is the raw
storage path of the blob, or none. -/
structure Item where
  id : Nat
  inventory_name : String
  description : String
  photo : Option String
deriving DecidableEq, Repr

/-- Whole-system state: the item records, the next id the repository will
assign, and the paths present in the blob store (upload directory). -/
structure St where
  devices : List Item
  nextId : Nat
  blobs : List String
deriving DecidableEq, Repr

/-- Storage events, used to state ordering properties of the handlers:
multer writing the uploaded blob, inserting a record, updating the photo
reference of a record, unlinking a blob, deleting a record. -/
inductive Ev
  | store (p : String)
  | insRec (id : Nat)
  | setRef (id : Nat) (p : Option String)
  | delBlob (p : String)
  | delRec (id : Nat)
deriving DecidableEq, Repr

/-- Result of running one handler: the response, the state after, and the
trace of storage events in the order the handler performed them. -/
structure Out where
  resp : Response
  st : St
  tr : List Ev
deriving DecidableEq, Repr

/-- Writing a blob: multer diskStorage writes the file under its generated
name (src/main.js lines 36-45).  Set semantics on the path list. -/
def storeBlob (p : String) (bs : List String) : List String :=
  if p ∈ bs then bs else p :: bs

/-- Effect on the blob store of `if (fs.existsSync(p)) fs.unlinkSync(p)`:
the path is removed when present, nothing happens otherwise. -/
def unlinkIfExists (p : String) (bs : List String) : List String :=
  bs.filter (fun q => decide (q ≠ p))

/-- Trace of the guarded unlink: a delBlob event fires exactly when the file
exists (the existsSync guard of src/main.js line 220 etc.). -/
def delBlobEv (p : String) (bs : List String) : List Ev :=
  if p ∈ bs then [Ev.delBlob p] else []

/-- Multer middleware `upload.single(photo)`: when the request carries a
file it is written to the blob store before the handler body runs; the
handler then sees its path in req.file.path. -/
def multer (file : Option String) (s : St) : St × List Ev :=
  match file with
  | none => (s, [])
  | some p => ({ s with blobs := storeBlob p s.blobs }, [Ev.store p])

/-- JS test `!inventory_name || inventory_name.trim() === ''` of
src/main.js line 104 / src/unnamed/part_001 line 94.  The argument is none
when the field is absent from the body (undefined); a string trims to empty
exactly when all its characters are whitespace. -/
def nameMissing : Option String → Bool
  | none => true
  | some n => n.data.all Char.isWhitespace

/-- JS truthiness of an optional string field: undefined and the empty
string are falsy, any other string is truthy. -/
def truthy : Option String → Bool
  | none => false
  | some t => !(t == "")

/-- Lookup of a record by id: `devices.find(d => d.id === id)` resp.
`SELECT ... WHERE id = ?` followed by rows[0]. -/
def findDev (id : Nat) : List Item → Option Item
  | [] => none
  | d :: ds => if d.id = id then some d else findDev id ds

/-- In-place mutation of the first record matching the id, as done by the
mem variant after `devices.find`. -/
def updFirst (id : Nat) (f : Item → Item) : List Item → List Item
  | [] => []
  | d :: ds => if d.id = id then f d :: ds else d :: updFirst id f ds

/-- Removal of the first record matching the id:
`devices.splice(devices.findIndex(...), 1)` of src/unnamed/part_001. -/
def eraseFirst (id : Nat) : List Item → List Item
  | [] => []
  | d :: ds => if d.id = id then ds else d :: eraseFirst id ds

/-- JSON rendering of an optional photo path (null when absent). -/
def photoJ : Option String → JVal
  | none => JVal.jnull
  | some p => JVal.str p

/-- JSON object for a raw item record, the shape produced by serializing a
device object or a SQL row: id, inventory_name, description and the raw
photo path. -/
def itemJ (d : Item) : JObj :=
  [("id", JVal.num d.id), ("inventory_name", JVal.str d.inventory_name),
   ("description", JVal.str d.description), ("photo", photoJ d.photo)]

/-- Public photo URL derived from the id. -/
def photoUrl (id : Nat) : String :=
  "/inventory/" ++ toString id ++ "/photo"

/-- Derived photo_url value: the URL when the record has a photo, JSON null
otherwise (the ternary `d.photo ? ... : null`). -/
def photoUrlJ (d : Item) : JVal :=
  match d.photo with
  | none => JVal.jnull
  | some _ => JVal.str (photoUrl d.id)

/-- Field update applied by PUT /inventory/:id in both variants: a field is
overwritten only when the provided value is truthy (src/main.js lines
198-199, src/unnamed/part_001 lines 224-225). -/
def applyUpd (name desc : Option String) (d : Item) : Item :=
  let d1 := if truthy name then { d with inventory_name := name.getD "" } else d
  if truthy desc then { d1 with description := desc.getD "" } else d1

/-- Association lookup in a JSON object (first binding wins, as in a JS
object literal read back by key). -/
def lookupJ (k : String) : JObj → Option JVal
  | [] => none
  | (k', v) :: o => if k' = k then some v else lookupJ k o

/-- Whether a JSON object carries a binding for the key. -/
def hasKey (k : String) (o : JObj) : Bool :=
  o.any (fun kv => kv.1 == k)

/-- POST /register of the in-memory variant, src/unnamed/part_001 lines
90-106: multer stores the upload, the name is validated (no cleanup of the
upload on failure), then the device is pushed with the next counter value
and returned raw (no photo_url field in this response). -/
def memRegister (name desc file : Option String) (s : St) : Out :=
  let m := multer file s
  if nameMissing name then
    { resp := { status := 400, body := RBody.text "The \"inventory_name\" field is required" }
      st := m.1, tr := m.2 }
  else
    let device : Item :=
      { id := m.1.nextId, inventory_name := name.getD ""
        description := desc.getD "", photo := file }
    { resp := { status := 201, body := RBody.json (itemJ device) }
      st := { devices := m.1.devices ++ [device], nextId := m.1.nextId + 1, blobs := m.1.blobs }
      tr := m.2 ++ [Ev.insRec device.id] }

/-- POST /register of the SQL variant, src/main.js lines 100-124: same
validation (again no cleanup of the upload on failure), INSERT of the row
with `description || ''`, response rebuilt by hand with the raw description
argument (key absent when the field was absent) and a derived photo_url. -/
def sqlRegister (name desc file : Option String) (s : St) : Out :=
  let m := multer file s
  if nameMissing name then
    { resp := { status := 400, body := RBody.text "The \"inventory_name\" field is required" }
      st := m.1, tr := m.2 }
  else
    let row : Item :=
      { id := m.1.nextId, inventory_name := name.getD ""
        description := desc.getD "", photo := file }
    let body : JObj :=
      [("id", JVal.num row.id), ("inventory_name", JVal.str (name.getD ""))]
      ++ (match desc with | none => [] | some d => [("description", JVal.str d)])
      ++ [("photo_url", match file with
           | none => JVal.jnull
           | some _ => JVal.str (photoUrl row.id))]
    { resp := { status := 201, body := RBody.json body }
      st := { devices := m.1.devices ++ [row], nextId := m.1.nextId + 1, blobs := m.1.blobs }
      tr := m.2 ++ [Ev.insRec row.id] }

/-- GET /inventory/:id of the in-memory variant, src/unnamed/part_001 lines
206-216: the found device is spread into the response together with the
derived photo_url. -/
def memGetById (id : Nat) (s : St) : Response :=
  match findDev id s.devices with
  | none => { status := 404, body := RBody.text "No item with such ID" }
  | some d => { status := 200, body := RBody.json (itemJ d ++ [("photo_url", photoUrlJ d)]) }

/-- GET /inventory/:id of the SQL variant, src/main.js lines 174-188: the
row is spread into the response together with the derived photo_url. -/
def sqlGetById (id : Nat) (s : St) : Response :=
  match findDev id s.devices with
  | none => { status := 404, body := RBody.text "No item with such ID" }
  | some d => { status := 200, body := RBody.json (itemJ d ++ [("photo_url", photoUrlJ d)]) }

/-- PUT /inventory/:id of the in-memory variant, src/unnamed/part_001 lines
217-227: 404 when absent, truthy fields overwrite in place, the mutated
device is returned raw. -/
def memUpdate (id : Nat) (name desc : Option String) (s : St) : Out :=
  match findDev id s.devices with
  | none => { resp := { status := 404, body := RBody.text "No item with such ID" }, st := s, tr := [] }
  | some d =>
    { resp := { status := 200, body := RBody.json (itemJ (applyUpd name desc d)) }
      st := { s with devices := updFirst id (applyUpd name desc) s.devices }
      tr := [] }

/-- PUT /inventory/:id of the SQL variant, src/main.js lines 189-211:
existence check, UPDATE of the truthy fields, re-SELECT of the row which is
returned raw (empty body in the impossible case that the re-SELECT finds
nothing, matching res.json(undefined)). -/
def sqlUpdate (id : Nat) (name desc : Option String) (s : St) : Out :=
  match findDev id s.devices with
  | none => { resp := { status := 404, body := RBody.text "No item with such ID" }, st := s, tr := [] }
  | some _ =>
    let ds2 := s.devices.map (fun e => if e.id = id then applyUpd name desc e else e)
    { resp := { status := 200
                body := match findDev id ds2 with
                        | none => RBody.emptyBody
                        | some r => RBody.json (itemJ r) }
      st := { s with devices := ds2 }
      tr := [] }

/-- GET /inventory/:id/photo of the in-memory variant, src/unnamed/part_001
lines 297-308: 404 when the item is absent, 404 when it has no photo or the
file is gone, otherwise the file is streamed. -/
def memGetPhoto (id : Nat) (s : St) : Response :=
  match findDev id s.devices with
  | none => { status := 404, body := RBody.text "Item not found" }
  | some d =>
    match d.photo with
    | none => { status := 404, body := RBody.text "Photo not found" }
    | some p =>
      if p ∈ s.blobs then { status := 200, body := RBody.fileStream p }
      else { status := 404, body := RBody.text "Photo not found" }

/-- GET /inventory/:id/photo of the SQL variant, src/main.js lines 243-260:
identical logic to the in-memory variant. -/
def sqlGetPhoto (id : Nat) (s : St) : Response :=
  match findDev id s.devices with
  | none => { status := 404, body := RBody.text "Item not found" }
  | some d =>
    match d.photo with
    | none => { status := 404, body := RBody.text "Photo not found" }
    | some p =>
      if p ∈ s.blobs then { status := 200, body := RBody.fileStream p }
      else { status := 404, body := RBody.text "Photo not found" }

/-- PUT /inventory/:id/photo of the in-memory variant, src/unnamed/part_001
lines 309-320: multer stores the upload first; a missing item gives 404
without unlinking the upload; a missing file gives 400; on success the OLD
blob is unlinked BEFORE the new reference is assigned to device.photo. -/
def memReplacePhoto (id : Nat) (file : Option String) (s : St) : Out :=
  let m := multer file s
  match findDev id m.1.devices with
  | none => { resp := { status := 404, body := RBody.text "Item not found" }, st := m.1, tr := m.2 }
  | some d =>
    match file with
    | none => { resp := { status := 400, body := RBody.text "Photo file not sent" }, st := m.1, tr := m.2 }
    | some p =>
      let cleanup : List String × List Ev :=
        match d.photo with
        | none => (m.1.blobs, [])
        | some old => (unlinkIfExists old m.1.blobs, delBlobEv old m.1.blobs)
      { resp := { status := 200, body := RBody.json (itemJ { d with photo := some p }) }
        st := { devices := updFirst id (fun e => { e with photo := some p }) m.1.devices
                nextId := m.1.nextId, blobs := cleanup.1 }
        tr := m.2 ++ cleanup.2 ++ [Ev.setRef id (some p)] }

/-- PUT /inventory/:id/photo of the SQL variant, src/main.js lines 261-284:
multer stores the upload first; a missing file gives 400 (checked before
the row lookup); a missing item gives 404 AND unlinks the upload; on
success the photo column is UPDATEd to the new path and only then is the
old blob unlinked (guarded by existsSync); the updated row is re-SELECTed
and returned raw. -/
def sqlReplacePhoto (id : Nat) (file : Option String) (s : St) : Out :=
  let m := multer file s
  match file with
  | none => { resp := { status := 400, body := RBody.text "Photo file not sent" }, st := m.1, tr := m.2 }
  | some p =>
    match findDev id m.1.devices with
    | none =>
      { resp := { status := 404, body := RBody.text "Item not found" }
        st := { m.1 with blobs := unlinkIfExists p m.1.blobs }
        tr := m.2 ++ [Ev.delBlob p] }
    | some d =>
      let ds2 := m.1.devices.map (fun e => if e.id = id then { e with photo := some p } else e)
      let cleanup : List String × List Ev :=
        match d.photo with
        | none => (m.1.blobs, [])
        | some old => (unlinkIfExists old m.1.blobs, delBlobEv old m.1.blobs)
      { resp := { status := 200
                  body := match findDev id ds2 with
                          | none => RBody.emptyBody
                          | some r => RBody.json (itemJ r) }
        st := { devices := ds2, nextId := m.1.nextId, blobs := cleanup.1 }
        tr := m.2 ++ [Ev.setRef id (some p)] ++ cleanup.2 }

/-- DELETE /inventory/:id of the in-memory variant, src/unnamed/part_001
lines 228-240: 404 when absent; otherwise the blob is unlinked FIRST
(guarded by existsSync) and the record is spliced out afterwards. -/
def memDelete (id : Nat) (s : St) : Out :=
  match findDev id s.devices with
  | none => { resp := { status := 404, body := RBody.text "Item not found" }, st := s, tr := [] }
  | some d =>
    let cleanup : List String × List Ev :=
      match d.photo with
      | none => (s.blobs, [])
      | some p => (unlinkIfExists p s.blobs, delBlobEv p s.blobs)
    { resp := { status := 200, body := RBody.jsonUnder "deleted" (itemJ d) }
      st := { devices := eraseFirst id s.devices, nextId := s.nextId, blobs := cleanup.1 }
      tr := cleanup.2 ++ [Ev.delRec id] }

/-- DELETE /inventory/:id of the SQL variant, src/main.js lines 212-228:
404 when absent; otherwise the row is DELETEd FIRST and the blob is
unlinked afterwards (guarded by existsSync). -/
def sqlDelete (id : Nat) (s : St) : Out :=
  match findDev id s.devices with
  | none => { resp := { status := 404, body := RBody.text "Item not found" }, st := s, tr := [] }
  | some d =>
    let cleanup : List String × List Ev :=
      match d.photo with
      | none => (s.blobs, [])
      | some p => (unlinkIfExists p s.blobs, delBlobEv p s.blobs)
    { resp := { status := 200
                body := RBody.json [("message", JVal.str ("Item " ++ toString id ++ " deleted"))] }
      st := { devices := s.devices.filter (fun e => decide (e.id ≠ id)), nextId := s.nextId
              blobs := cleanup.1 }
      tr := [Ev.delRec id] ++ cleanup.2 }

/-- Decimal digit-string value. -/
def digitsToNat (cs : List Char) : Nat :=
  cs.foldl (fun a c => a * 10 + (c.toNat - 48)) 0

/-- Digit-string value in a given base with a given digit valuation. -/
def digitsToNatBase (b : Nat) (v : Char → Nat) (cs : List Char) : Nat :=
  cs.foldl (fun a c => a * b + v c) 0

/-- Hexadecimal digit test, for the 0x literal form of Number(). -/
def isHexDigitC (c : Char) : Bool :=
  c.isDigit || ('a' ≤ c && c ≤ 'f') || ('A' ≤ c && c ≤ 'F')

/-- Octal digit test, for the 0o literal form of Number(). -/
def isOctDigitC (c : Char) : Bool :=
  '0' ≤ c && c ≤ '7'

/-- Binary digit test, for the 0b literal form of Number(). -/
def isBinDigitC (c : Char) : Bool :=
  c = '0' || c = '1'

/-- Value of a hexadecimal digit. -/
def hexVal (c : Char) : Nat :=
  if c.isDigit then c.toNat - 48
  else if 'a' ≤ c then c.toNat - 87
  else c.toNat - 55

/-- Result of the JS Number() conversion as far as the search comparison
needs it: NaN is represented by none at the use site; a converted number is
either exactly the integer n, or a number that is not an integer (a
fraction or an infinity) and therefore never strictly equals an integer
item id. -/
inductive JsNum
  | intVal (n : Int)
  | nonInt
deriving DecidableEq, Repr

/-- Exponent part of a decimal literal, after the e/E marker: an optional
sign followed by at least one digit. -/
def parseExp : List Char → Option Int
  | [] => none
  | '+' :: r =>
    if r ≠ [] ∧ r.all Char.isDigit then some ((digitsToNat r : Nat) : Int) else none
  | '-' :: r =>
    if r ≠ [] ∧ r.all Char.isDigit then some (-((digitsToNat r : Nat) : Int)) else none
  | r =>
    if r ≠ [] ∧ r.all Char.isDigit then some ((digitsToNat r : Nat) : Int) else none

/-- Mantissa of a decimal literal: digits with an optional single decimal
point, at least one digit overall; yields the combined digit value and the
number of fraction digits. -/
def parseMantissa (cs : List Char) : Option (Nat × Nat) :=
  let sp := cs.span (fun c => decide (c ≠ '.'))
  match sp.2 with
  | [] => if cs ≠ [] ∧ cs.all Char.isDigit then some (digitsToNat cs, 0) else none
  | _ :: fp =>
    if (sp.1 ≠ [] ∨ fp ≠ []) ∧ sp.1.all Char.isDigit ∧ fp.all Char.isDigit then
      some (digitsToNat (sp.1 ++ fp), fp.length)
    else none

/-- Exact value of m * 10 ^ e, abstracted to integer-or-not. -/
def scaleByPow10 (m : Nat) (e : Int) : JsNum :=
  if 0 ≤ e then JsNum.intVal ((m : Int) * (10 : Int) ^ e.toNat)
  else
    let k := (-e).toNat
    if m % 10 ^ k = 0 then JsNum.intVal ((m / 10 ^ k : Nat) : Int) else JsNum.nonInt

/-- Decimal literal (after the optional sign): a mantissa with an optional
e/E exponent part. -/
def decLit (cs : List Char) : Option JsNum :=
  let sp := cs.span (fun c => decide (c ≠ 'e' ∧ c ≠ 'E'))
  match sp.2 with
  | [] =>
    match parseMantissa cs with
    | none => none
    | some (m, fl) => some (scaleByPow10 m (-(fl : Int)))
  | _ :: ex =>
    match parseMantissa sp.1, parseExp ex with
    | some (m, fl), some e => some (scaleByPow10 m (e - (fl : Int)))
    | _, _ => none

/-- Optionally signed part of the Number() grammar: Infinity (never equal
to an integer id) or a decimal literal.  A sign before a hex, octal or
binary literal correctly fails here, as in JS. -/
def jsNumSigned (t : List Char) : Option JsNum :=
  let sb : Int × List Char :=
    match t with
    | '+' :: r => (1, r)
    | '-' :: r => (-1, r)
    | r => (1, r)
  if sb.2 = "Infinity".data then some JsNum.nonInt
  else
    match decLit sb.2 with
    | none => none
    | some (JsNum.intVal n) => some (JsNum.intVal (sb.1 * n))
    | some JsNum.nonInt => some JsNum.nonInt

/-- Model of the JS Number() conversion applied to the id field of the
search body; none stands for NaN.  Per the StringNumericLiteral grammar: a
string that is empty after trimming converts to 0; unsigned hex, octal and
binary literals; optionally signed Infinity; optionally signed decimal
literals with optional fraction and exponent; anything else is NaN.
Values are kept exact and abstracted to integer-or-not (only an integer
value can strictly equal an item id); the IEEE-754 double rounding that JS
applies to magnitudes beyond 2^53 is outside the model. -/
def jsNum : Option String → Option JsNum
  | none => none
  | some s =>
    let t := ((s.data.dropWhile Char.isWhitespace).reverse.dropWhile Char.isWhitespace).reverse
    if t = [] then some (JsNum.intVal 0)
    else
      match t with
      | '0' :: x :: rest =>
        if x = 'x' ∨ x = 'X' then
          if rest ≠ [] ∧ rest.all isHexDigitC then
            some (JsNum.intVal (digitsToNatBase 16 hexVal rest))
          else none
        else if x = 'o' ∨ x = 'O' then
          if rest ≠ [] ∧ rest.all isOctDigitC then
            some (JsNum.intVal (digitsToNatBase 8 (fun c => c.toNat - 48) rest))
          else none
        else if x = 'b' ∨ x = 'B' then
          if rest ≠ [] ∧ rest.all isBinDigitC then
            some (JsNum.intVal (digitsToNatBase 2 (fun c => c.toNat - 48) rest))
          else none
        else jsNumSigned t
      | _ => jsNumSigned t

/-- The strict equality `d.id === numericId` of the search handlers: an
integer id equals the converted number exactly when the number is that
integer. -/
def jsNumMatches (v : JsNum) (id : Nat) : Bool :=
  match v with
  | JsNum.intVal n => decide ((id : Int) = n)
  | JsNum.nonInt => false

/-- Lookup of a record by the converted numeric id. -/
def findDevJ (v : JsNum) : List Item → Option Item
  | [] => none
  | d :: ds => if jsNumMatches v d.id then some d else findDevJ v ds

/-- POST /search of the in-memory variant, src/unnamed/part_001 lines
353-377: 400 when the id does not convert to a number, 404 when no device
matches, otherwise a 201 response with id, inventory_name and description,
plus photo_url only when the device has a photo; the raw storage path is
never included. -/
def memSearch (idField : Option String) (s : St) : Response :=
  match jsNum idField with
  | none => { status := 400, body := RBody.text "Invalid ID" }
  | some n =>
    match findDevJ n s.devices with
    | none => { status := 404, body := RBody.text "Item not found" }
    | some d =>
      { status := 201
        body := RBody.json
          ([("id", JVal.num d.id), ("inventory_name", JVal.str d.inventory_name),
            ("description", JVal.str d.description)]
           ++ (match d.photo with
               | none => []
               | some _ => [("photo_url", JVal.str (photoUrl d.id))])) }

/-- POST /search of the SQL variant, src/main.js lines 296-318: same checks;
the response always carries a photo_url key (null when no photo) and never
the raw storage path. -/
def sqlSearch (idField : Option String) (s : St) : Response :=
  match jsNum idField with
  | none => { status := 400, body := RBody.text "Invalid ID" }
  | some n =>
    match findDevJ n s.devices with
    | none => { status := 404, body := RBody.text "Item not found" }
    | some d =>
      { status := 201
        body := RBody.json
          [("id", JVal.num d.id), ("inventory_name", JVal.str d.inventory_name),
           ("description", JVal.str d.description), ("photo_url", photoUrlJ d)] }

/-- HTTP methods considered for the routing table, including HEAD and
OPTIONS, which Express treats specially. -/
inductive Method
  | GET | POST | PUT | DELETE | PATCH | HEAD | OPTIONS
deriving DecidableEq, Repr

/-- The defined paths of the service. -/
inductive RPath
  | register | inventory | inventoryId | inventoryIdPhoto | search
deriving DecidableEq, Repr

/-- Routing outcome: a real handler runs (for HEAD requests, the matching
GET handler), the app.all fallback answers 405 with an Allow header, the
Express default OPTIONS response answers 200 with an Allow header, or no
registered route matches and the request falls through to the framework
default. -/
inductive RouteResult
  | handled
  | methodNotAllowed (allow : String)
  | optionsDefault (allow : String)
  | fallthrough
deriving DecidableEq, Repr

/-- Route registration of both variants (identical in src/main.js and
src/unnamed/part_001), under Express router semantics: a GET route also
serves HEAD requests; an app.all fallback catches every method, HEAD and
OPTIONS included, so each path except /search answers unmatched methods
with 405 and the Allow header shown; /search registers only app.post, so an
OPTIONS request receives the Express default 200 response with the allowed
method list and every other unmatched method falls through. -/
def dispatch (m : Method) (p : RPath) : RouteResult :=
  match p with
  | .register => if m = .POST then .handled else .methodNotAllowed "POST"
  | .inventory =>
    if m = .GET ∨ m = .HEAD then .handled else .methodNotAllowed "GET"
  | .inventoryId =>
    if m = .GET ∨ m = .HEAD ∨ m = .PUT ∨ m = .DELETE then .handled
    else .methodNotAllowed "GET, PUT, DELETE"
  | .inventoryIdPhoto =>
    if m = .GET ∨ m = .HEAD ∨ m = .PUT then .handled
    else .methodNotAllowed "GET, PUT"
  | .search =>
    if m = .POST then .handled
    else if m = .OPTIONS then .optionsDefault "POST"
    else .fallthrough

/-- Status produced when no registered handler body runs: 405 from the
app.all fallbacks, 200 from the Express default OPTIONS response, 404 from
the Express default handler on a fallthrough. -/
def fallbackStatus : RouteResult → Option Nat
  | .methodNotAllowed _ => some 405
  | .optionsDefault _ => some 200
  | .fallthrough => some 404
  | .handled => none

/-- The four state-changing operations of the lifecycle coordinator. -/
inductive Op
  | register (name desc file : Option String)
  | updateFields (id : Nat) (name desc : Option String)
  | replacePhoto (id : Nat) (file : Option String)
  | delete (id : Nat)
deriving DecidableEq, Repr

/-- Dispatch of an operation to the in-memory handlers. -/
def memStep : Op → St → Out
  | .register n d f => memRegister n d f
  | .updateFields i n d => memUpdate i n d
  | .replacePhoto i f => memReplacePhoto i f
  | .delete i => memDelete i

/-- Dispatch of an operation to the SQL handlers. -/
def sqlStep : Op → St → Out
  | .register n d f => sqlRegister n d f
  | .updateFields i n d => sqlUpdate i n d
  | .replacePhoto i f => sqlReplacePhoto i f
  | .delete i => sqlDelete i

/-- Path of the uploaded file carried by an operation, if any. -/
def opFile : Op → Option String
  | .register _ _ f => f
  | .replacePhoto _ f => f
  | _ => none

/-- Lookup of a key in a JSON response body (none when the body is not a
JSON object or lacks the key). -/
def respLookup (k : String) (r : Response) : Option JVal :=
  match r.body with
  | RBody.json o => lookupJ k o
  | _ => none

/-- Whether a JSON response body carries a binding for the key. -/
def respHasKey (k : String) (r : Response) : Bool :=
  match r.body with
  | RBody.json o => hasKey k o
  | _ => false

/-- Blob-unlink events that a delete or photo-replace emits for a record:
one guarded delBlob for its photo when it has one. -/
def cleanupEv (d : Item) (bs : List String) : List Ev :=
  match d.photo with
  | none => []
  | some p => delBlobEv p bs

/-- Small concrete state used by witnesses: one item with id 1 owning blob
"a", counter at 2. -/
def wSt : St := ⟨[⟨1, "Laptop", "", some "a"⟩], 2, ["a"]⟩

/-! Invariants of the item/blob data model (spec section 3). -/

/-- One record has a valid photo reference: its photo path, when present,
exists in the blob store. -/
def photoOkB (d : Item) (bs : List String) : Bool :=
  match d.photo with
  | none => true
  | some p => decide (p ∈ bs)

/-- No dangling references: every record with a photo points at a blob that
exists in the store. -/
def refsOkL (ds : List Item) (bs : List String) : Bool :=
  ds.all (fun d => photoOkB d bs)

/-- The photo of the first record, when present, differs from the photo of
the second record. -/
def photoNeB (a e : Item) : Bool :=
  match a.photo with
  | none => true
  | some p => decide (e.photo ≠ some p)

/-- Each blob is owned by at most one record (pairwise distinct non-null
photo references). -/
def photosDL : List Item → Bool
  | [] => true
  | d :: t => t.all (photoNeB d) && photosDL t

/-- Pairwise distinct record ids. -/
def idsDL : List Item → Bool
  | [] => true
  | d :: t => t.all (fun e => decide (e.id ≠ d.id)) && idsDL t

/-- All record ids are below the next id the repository will assign. -/
def idsBelowL (ds : List Item) (n : Nat) : Bool :=
  ds.all (fun d => decide (d.id < n))

/-- Data-model invariant: valid references, unique blob ownership, unique
ids, ids below the allocation counter. -/
def invB (s : St) : Bool :=
  refsOkL s.devices s.blobs && photosDL s.devices && idsDL s.devices
    && idsBelowL s.devices s.nextId

/-- No orphan blobs: every path in the blob store is referenced by some
record. -/
def noOrphL (ds : List Item) (bs : List String) : Bool :=
  bs.all (fun p => ds.any (fun d => decide (d.photo = some p)))

/-- No orphan blobs, stated on a whole state. -/
def noOrphB (s : St) : Bool :=
  noOrphL s.devices s.blobs

/-- Freshness of the uploaded path of an operation: multer generates a new
unique filename, so the path written for this request is not yet in the
store. -/
def freshB (op : Op) (s : St) : Bool :=
  match opFile op with
  | none => true
  | some p => decide (p ∉ s.blobs)

/-! Bridge lemmas between the executable Bool invariants and their Prop
formulations. -/

theorem photoOkB_iff {d : Item} {bs : List String} :
    photoOkB d bs = true ↔ ∀ p, d.photo = some p → p ∈ bs := by
  cases h : d.photo <;> simp [photoOkB, h]

theorem refsOkL_iff {ds : List Item} {bs : List String} :
    refsOkL ds bs = true ↔ ∀ d ∈ ds, ∀ p, d.photo = some p → p ∈ bs := by
  simp only [refsOkL, List.all_eq_true, photoOkB_iff]

theorem photoNeB_iff {a e : Item} :
    photoNeB a e = true ↔ ∀ p, a.photo = some p → e.photo ≠ some p := by
  cases h : a.photo <;> simp [photoNeB, h]

/-- Relation underlying the unique-ownership invariant. -/
def PhotoNe (a e : Item) : Prop := ∀ p, a.photo = some p → e.photo ≠ some p

theorem photosDL_iff {ds : List Item} :
    photosDL ds = true ↔ ds.Pairwise PhotoNe := by
  induction ds with
  | nil => simp [photosDL]
  | cons d t ih =>
    simp only [photosDL, Bool.and_eq_true, List.pairwise_cons, ih,
      List.all_eq_true, photoNeB_iff]
    exact and_congr_left (fun _ => Iff.rfl)

theorem idsDL_iff {ds : List Item} :
    idsDL ds = true ↔ ds.Pairwise (fun a e => a.id ≠ e.id) := by
  induction ds with
  | nil => simp [idsDL]
  | cons d t ih =>
    simp only [idsDL, Bool.and_eq_true, List.pairwise_cons, ih,
      List.all_eq_true, decide_eq_true_eq]
    constructor
    · rintro ⟨h1, h2⟩
      exact ⟨fun e he => (h1 e he).symm, h2⟩
    · rintro ⟨h1, h2⟩
      exact ⟨fun e he => (h1 e he).symm, h2⟩

theorem idsBelowL_iff {ds : List Item} {n : Nat} :
    idsBelowL ds n = true ↔ ∀ d ∈ ds, d.id < n := by
  simp [idsBelowL, List.all_eq_true]

theorem noOrphL_iff {ds : List Item} {bs : List String} :
    noOrphL ds bs = true ↔ ∀ p ∈ bs, ∃ d, d ∈ ds ∧ d.photo = some p := by
  simp [noOrphL, List.all_eq_true, List.any_eq_true]

theorem invB_iff {s : St} :
    invB s = true ↔
      (∀ d ∈ s.devices, ∀ p, d.photo = some p → p ∈ s.blobs) ∧
      s.devices.Pairwise PhotoNe ∧
      s.devices.Pairwise (fun a e => a.id ≠ e.id) ∧
      ∀ d ∈ s.devices, d.id < s.nextId := by
  simp only [invB, Bool.and_eq_true, refsOkL_iff, photosDL_iff, idsDL_iff,
    idsBelowL_iff, and_assoc]

/-! Membership and list-manipulation helper lemmas. -/

theorem mem_storeBlob_iff {q p : String} {bs : List String} :
    q ∈ storeBlob p bs ↔ q = p ∨ q ∈ bs := by
  unfold storeBlob
  split
  · rename_i h
    constructor
    · exact Or.inr
    · rintro (rfl | hq)
      · exact h
      · exact hq
  · simp [List.mem_cons]

theorem self_mem_storeBlob {p : String} {bs : List String} : p ∈ storeBlob p bs :=
  mem_storeBlob_iff.mpr (Or.inl rfl)

theorem mem_unlink_iff {q p : String} {bs : List String} :
    q ∈ unlinkIfExists p bs ↔ q ∈ bs ∧ q ≠ p := by
  simp [unlinkIfExists, List.mem_filter]

theorem unlink_of_not_mem {p : String} {bs : List String} (h : p ∉ bs) :
    unlinkIfExists p bs = bs := by
  apply List.filter_eq_self.mpr
  intro q hq
  simp only [decide_eq_true_eq]
  rintro rfl
  exact h hq

theorem unlink_storeBlob_fresh {p : String} {bs : List String} (h : p ∉ bs) :
    unlinkIfExists p (storeBlob p bs) = bs := by
  rw [storeBlob, if_neg h]
  have h2 : unlinkIfExists p (p :: bs) = unlinkIfExists p bs := by
    rw [unlinkIfExists, unlinkIfExists, List.filter_cons]
    simp
  rw [h2, unlink_of_not_mem h]

theorem findDev_eq_none {id : Nat} {ds : List Item} :
    findDev id ds = none ↔ ∀ d ∈ ds, d.id ≠ id := by
  induction ds with
  | nil => simp [findDev]
  | cons d t ih =>
    by_cases h : d.id = id <;> simp [findDev, h, ih]

theorem findDev_split {id : Nat} {ds : List Item} {d : Item}
    (h : findDev id ds = some d) :
    ∃ l1 l2, ds = l1 ++ d :: l2 ∧ (∀ e ∈ l1, e.id ≠ id) ∧ d.id = id := by
  induction ds with
  | nil => simp [findDev] at h
  | cons a t ih =>
    by_cases ha : a.id = id
    · rw [findDev, if_pos ha] at h
      cases h
      exact ⟨[], t, rfl, by simp, ha⟩
    · rw [findDev, if_neg ha] at h
      obtain ⟨l1, l2, rfl, h1, h2⟩ := ih h
      exact ⟨a :: l1, l2, rfl, by
        intro e he
        rcases List.mem_cons.mp he with rfl | he'
        · exact ha
        · exact h1 e he', h2⟩

theorem findDev_mem {id : Nat} {ds : List Item} {d : Item}
    (h : findDev id ds = some d) : d ∈ ds := by
  obtain ⟨l1, l2, rfl, _, _⟩ := findDev_split h
  simp

theorem findDev_id {id : Nat} {ds : List Item} {d : Item}
    (h : findDev id ds = some d) : d.id = id := by
  obtain ⟨_, _, _, _, h2⟩ := findDev_split h
  exact h2

theorem findDev_append_of_none {id : Nat} {l1 l2 : List Item}
    (h1 : ∀ e ∈ l1, e.id ≠ id) :
    findDev id (l1 ++ l2) = findDev id l2 := by
  induction l1 with
  | nil => rfl
  | cons a t ih =>
    rw [List.cons_append, findDev, if_neg (h1 a (List.mem_cons_self a t))]
    exact ih (fun e he => h1 e (List.mem_cons_of_mem a he))

theorem updFirst_append {id : Nat} {f : Item → Item} {l1 l2 : List Item} {d : Item}
    (h1 : ∀ e ∈ l1, e.id ≠ id) (hd : d.id = id) :
    updFirst id f (l1 ++ d :: l2) = l1 ++ f d :: l2 := by
  induction l1 with
  | nil => simp [updFirst, hd]
  | cons a t ih =>
    rw [List.cons_append, updFirst, if_neg (h1 a (List.mem_cons_self a t)),
      ih (fun e he => h1 e (List.mem_cons_of_mem a he)), List.cons_append]

theorem eraseFirst_append {id : Nat} {l1 l2 : List Item} {d : Item}
    (h1 : ∀ e ∈ l1, e.id ≠ id) (hd : d.id = id) :
    eraseFirst id (l1 ++ d :: l2) = l1 ++ l2 := by
  induction l1 with
  | nil => simp [eraseFirst, hd]
  | cons a t ih =>
    rw [List.cons_append, eraseFirst, if_neg (h1 a (List.mem_cons_self a t)),
      ih (fun e he => h1 e (List.mem_cons_of_mem a he)), List.cons_append]

theorem pairwise_middle_left {R : Item → Item → Prop} {l1 l2 : List Item} {d : Item}
    (h : (l1 ++ d :: l2).Pairwise R) : ∀ e ∈ l1, R e d := by
  obtain ⟨-, -, hcross⟩ := List.pairwise_append.mp h
  exact fun e he => hcross e he d (List.mem_cons_self d l2)

theorem pairwise_middle_right {R : Item → Item → Prop} {l1 l2 : List Item} {d : Item}
    (h : (l1 ++ d :: l2).Pairwise R) : ∀ e ∈ l2, R d e := by
  obtain ⟨-, hdl, -⟩ := List.pairwise_append.mp h
  exact (List.pairwise_cons.mp hdl).1

theorem pairwise_drop_middle {R : Item → Item → Prop} {l1 l2 : List Item} {d : Item}
    (h : (l1 ++ d :: l2).Pairwise R) : (l1 ++ l2).Pairwise R := by
  obtain ⟨h1, hdl, hcross⟩ := List.pairwise_append.mp h
  exact List.pairwise_append.mpr
    ⟨h1, (List.pairwise_cons.mp hdl).2,
     fun a ha b hb => hcross a ha b (List.mem_cons_of_mem d hb)⟩

theorem pairwise_replace_middle {R : Item → Item → Prop} {l1 l2 : List Item} {d d' : Item}
    (h : (l1 ++ d :: l2).Pairwise R)
    (h1 : ∀ e ∈ l1, R e d') (h2 : ∀ e ∈ l2, R d' e) :
    (l1 ++ d' :: l2).Pairwise R := by
  obtain ⟨hp1, hdl, hcross⟩ := List.pairwise_append.mp h
  refine List.pairwise_append.mpr ⟨hp1, List.pairwise_cons.mpr ⟨h2, (List.pairwise_cons.mp hdl).2⟩, ?_⟩
  intro a ha b hb
  rcases List.mem_cons.mp hb with rfl | hb'
  · exact h1 a ha
  · exact hcross a ha b (List.mem_cons_of_mem d hb')

theorem map_cond_id {id : Nat} {f : Item → Item} {l : List Item}
    (h : ∀ e ∈ l, e.id ≠ id) :
    l.map (fun e => if e.id = id then f e else e) = l := by
  induction l with
  | nil => rfl
  | cons a t ih =>
    rw [List.map_cons, if_neg (h a (List.mem_cons_self a t)),
      ih (fun e he => h e (List.mem_cons_of_mem a he))]

theorem map_cond_append {id : Nat} {f : Item → Item} {l1 l2 : List Item} {d : Item}
    (h1 : ∀ e ∈ l1, e.id ≠ id) (h2 : ∀ e ∈ l2, e.id ≠ id) (hd : d.id = id) :
    (l1 ++ d :: l2).map (fun e => if e.id = id then f e else e) = l1 ++ f d :: l2 := by
  rw [List.map_append, List.map_cons, if_pos hd, map_cond_id h1, map_cond_id h2]

theorem filter_cond_append {id : Nat} {l1 l2 : List Item} {d : Item}
    (h1 : ∀ e ∈ l1, e.id ≠ id) (h2 : ∀ e ∈ l2, e.id ≠ id) (hd : d.id = id) :
    (l1 ++ d :: l2).filter (fun e => decide (e.id ≠ id)) = l1 ++ l2 := by
  rw [List.filter_append, List.filter_cons]
  have hd' : (decide (d.id ≠ id)) = false := by simp [hd]
  rw [hd']
  simp only [Bool.false_eq_true, if_false]
  congr 1
  · exact List.filter_eq_self.mpr (fun e he => by simpa using h1 e he)
  · exact List.filter_eq_self.mpr (fun e he => by simpa using h2 e he)

theorem refsOk_mono {ds : List Item} {bs bs' : List String}
    (hsub : ∀ q ∈ bs, q ∈ bs')
    (h : ∀ d ∈ ds, ∀ p, d.photo = some p → p ∈ bs) :
    ∀ d ∈ ds, ∀ p, d.photo = some p → p ∈ bs' :=
  fun d hd p hp => hsub p (h d hd p hp)

/-! Preservation of the data-model invariant by Register (both variants
share the same state transition). -/

theorem register_states_eq (name desc file : Option String) (s : St) :
    (sqlRegister name desc file s).st = (memRegister name desc file s).st ∧
    (sqlRegister name desc file s).resp.status = (memRegister name desc file s).resp.status := by
  unfold sqlRegister memRegister
  by_cases h : nameMissing name = true <;> simp [h]

theorem inv_append_fresh {ds : List Item} {bs : List String} {n : Nat} {v : Item}
    (hRefs : ∀ d ∈ ds, ∀ p, d.photo = some p → p ∈ bs)
    (hPh : ds.Pairwise PhotoNe)
    (hIds : ds.Pairwise fun a e => a.id ≠ e.id)
    (hBelow : ∀ d ∈ ds, d.id < n) (hv : v.id = n)
    (hvp : ∀ p, v.photo = some p → p ∉ bs) (bs' : List String)
    (hsub : ∀ q ∈ bs, q ∈ bs') (hvin : ∀ p, v.photo = some p → p ∈ bs') :
    (∀ d ∈ ds ++ [v], ∀ p, d.photo = some p → p ∈ bs') ∧
    (ds ++ [v]).Pairwise PhotoNe ∧
    ((ds ++ [v]).Pairwise fun a e => a.id ≠ e.id) ∧
    (∀ d ∈ ds ++ [v], d.id < n + 1) := by
  refine ⟨?_, ?_, ?_, ?_⟩
  · intro d hd p hp
    rcases List.mem_append.mp hd with hd' | hd'
    · exact hsub p (hRefs d hd' p hp)
    · rw [List.mem_singleton.mp hd'] at hp
      exact hvin p hp
  · refine List.pairwise_append.mpr ⟨hPh, List.pairwise_singleton _ _, ?_⟩
    intro a ha b hb p hap
    rw [List.mem_singleton.mp hb]
    intro hvp'
    exact hvp p hvp' (hRefs a ha p hap)
  · refine List.pairwise_append.mpr ⟨hIds, List.pairwise_singleton _ _, ?_⟩
    intro a ha b hb
    rw [List.mem_singleton.mp hb, hv]
    exact Nat.ne_of_lt (hBelow a ha)
  · intro d hd
    rcases List.mem_append.mp hd with hd' | hd'
    · exact Nat.lt_succ_of_lt (hBelow d hd')
    · rw [List.mem_singleton.mp hd', hv]
      exact Nat.lt_succ_self n

theorem memRegister_inv (name desc file : Option String) (s : St)
    (hI : invB s = true) (hf : ∀ p, file = some p → p ∉ s.blobs) :
    invB (memRegister name desc file s).st = true ∧
    ((memRegister name desc file s).resp.status ≤ 299 →
      noOrphB s = true → noOrphB (memRegister name desc file s).st = true) := by
  obtain ⟨hRefs, hPh, hIds, hBelow⟩ := invB_iff.mp hI
  cases file with
  | none =>
    by_cases h : nameMissing name = true
    · simp only [memRegister, multer, h, if_true]
      exact ⟨hI, by intro hc; omega⟩
    · simp only [memRegister, multer, h, Bool.false_eq_true, if_false]
      constructor
      · rw [invB_iff]
        have := inv_append_fresh hRefs hPh hIds hBelow (v := ⟨s.nextId, name.getD "", desc.getD "", none⟩)
          rfl (by intro p hp; cases hp) s.blobs (fun q hq => hq) (by intro p hp; cases hp)
        exact ⟨this.1, this.2.1, this.2.2.1, this.2.2.2⟩
      · intro h2 hO
        rw [noOrphB, noOrphL_iff]
        intro p hp
        obtain ⟨d, hd, hdp⟩ := (noOrphL_iff.mp hO) p hp
        exact ⟨d, List.mem_append.mpr (Or.inl hd), hdp⟩
  | some f =>
    have hf' : f ∉ s.blobs := hf f rfl
    by_cases h : nameMissing name = true
    · simp only [memRegister, multer, h, if_true]
      constructor
      · rw [invB_iff]
        exact ⟨refsOk_mono (fun q hq => mem_storeBlob_iff.mpr (Or.inr hq)) hRefs,
          hPh, hIds, hBelow⟩
      · intro hc; omega
    · simp only [memRegister, multer, h, Bool.false_eq_true, if_false]
      constructor
      · rw [invB_iff]
        have := inv_append_fresh hRefs hPh hIds hBelow
          (v := ⟨s.nextId, name.getD "", desc.getD "", some f⟩) rfl
          (by intro p hp; cases hp; exact hf') (storeBlob f s.blobs)
          (fun q hq => mem_storeBlob_iff.mpr (Or.inr hq))
          (by intro p hp; cases hp; exact self_mem_storeBlob)
        exact ⟨this.1, this.2.1, this.2.2.1, this.2.2.2⟩
      · intro _ hO
        rw [noOrphB, noOrphL_iff]
        intro p hp
        rcases mem_storeBlob_iff.mp hp with rfl | hp'
        · exact ⟨⟨s.nextId, name.getD "", desc.getD "", some p⟩,
            List.mem_append.mpr (Or.inr (List.mem_singleton.mpr rfl)), rfl⟩
        · obtain ⟨d, hd, hdp⟩ := (noOrphL_iff.mp hO) p hp'
          exact ⟨d, List.mem_append.mpr (Or.inl hd), hdp⟩

/-! Preservation of the data-model invariant by UpdateFields: the update
function leaves photo and id untouched, so every invariant is unchanged. -/

theorem applyUpd_photo (name desc : Option String) (d : Item) :
    (applyUpd name desc d).photo = d.photo := by
  unfold applyUpd
  by_cases h1 : truthy name = true <;> by_cases h2 : truthy desc = true <;> simp [h1, h2]

theorem applyUpd_id (name desc : Option String) (d : Item) :
    (applyUpd name desc d).id = d.id := by
  unfold applyUpd
  by_cases h1 : truthy name = true <;> by_cases h2 : truthy desc = true <;> simp [h1, h2]

theorem applyUpd_name (name desc : Option String) (d : Item) :
    (applyUpd name desc d).inventory_name =
      if truthy name then name.getD "" else d.inventory_name := by
  unfold applyUpd
  by_cases h1 : truthy name = true <;> by_cases h2 : truthy desc = true <;> simp [h1, h2]

theorem applyUpd_desc (name desc : Option String) (d : Item) :
    (applyUpd name desc d).description =
      if truthy desc then desc.getD "" else d.description := by
  unfold applyUpd
  by_cases h1 : truthy name = true <;> by_cases h2 : truthy desc = true <;> simp [h1, h2]

theorem all_congr_fun {α : Type} {l : List α} {f g : α → Bool}
    (h : ∀ x ∈ l, f x = g x) : l.all f = l.all g := by
  induction l with
  | nil => rfl
  | cons a t ih =>
    rw [List.all_cons, List.all_cons, h a (List.mem_cons_self a t),
      ih (fun x hx => h x (List.mem_cons_of_mem a hx))]

theorem all_updFirst {id : Nat} {f : Item → Item} {ds : List Item} {pred : Item → Bool}
    (h : ∀ e, pred (f e) = pred e) :
    (updFirst id f ds).all pred = ds.all pred := by
  induction ds with
  | nil => rfl
  | cons a t ih =>
    rw [updFirst]
    by_cases ha : a.id = id
    · rw [if_pos ha, List.all_cons, List.all_cons, h]
    · rw [if_neg ha, List.all_cons, List.all_cons, ih]

theorem any_updFirst {id : Nat} {f : Item → Item} {ds : List Item} {pred : Item → Bool}
    (h : ∀ e, pred (f e) = pred e) :
    (updFirst id f ds).any pred = ds.any pred := by
  induction ds with
  | nil => rfl
  | cons a t ih =>
    rw [updFirst]
    by_cases ha : a.id = id
    · rw [if_pos ha, List.any_cons, List.any_cons, h]
    · rw [if_neg ha, List.any_cons, List.any_cons, ih]

theorem all_map_pres {g : Item → Item} {ds : List Item} {pred : Item → Bool}
    (h : ∀ e, pred (g e) = pred e) :
    (ds.map g).all pred = ds.all pred := by
  induction ds with
  | nil => rfl
  | cons a t ih => rw [List.map_cons, List.all_cons, List.all_cons, h, ih]

theorem any_map_pres {g : Item → Item} {ds : List Item} {pred : Item → Bool}
    (h : ∀ e, pred (g e) = pred e) :
    (ds.map g).any pred = ds.any pred := by
  induction ds with
  | nil => rfl
  | cons a t ih => rw [List.map_cons, List.any_cons, List.any_cons, h, ih]

theorem photoNeB_congr_left {a a' e : Item} (h : a'.photo = a.photo) :
    photoNeB a' e = photoNeB a e := by
  unfold photoNeB
  rw [h]

theorem photoNeB_congr_right {a e : Item} {g : Item → Item} (h : (g e).photo = e.photo) :
    photoNeB a (g e) = photoNeB a e := by
  unfold photoNeB
  cases a.photo with
  | none => rfl
  | some p => rw [h]

theorem photosDL_updFirst {id : Nat} {f : Item → Item} {ds : List Item}
    (hphoto : ∀ e, (f e).photo = e.photo) :
    photosDL (updFirst id f ds) = photosDL ds := by
  induction ds with
  | nil => rfl
  | cons a t ih =>
    rw [updFirst]
    by_cases ha : a.id = id
    · rw [if_pos ha, photosDL, photosDL]
      congr 1
      have : photoNeB (f a) = photoNeB a := funext (fun e => photoNeB_congr_left (hphoto a))
      rw [this]
    · rw [if_neg ha, photosDL, photosDL, ih, all_updFirst (fun e => photoNeB_congr_right (hphoto e))]

theorem photosDL_map {g : Item → Item} {ds : List Item}
    (hphoto : ∀ e, (g e).photo = e.photo) :
    photosDL (ds.map g) = photosDL ds := by
  induction ds with
  | nil => rfl
  | cons a t ih =>
    rw [List.map_cons, photosDL, photosDL, ih,
      all_map_pres (fun e => photoNeB_congr_right (hphoto e))]
    congr 1
    have : photoNeB (g a) = photoNeB a := funext (fun e => photoNeB_congr_left (hphoto a))
    rw [this]

theorem idsDL_updFirst {id : Nat} {f : Item → Item} {ds : List Item}
    (hid : ∀ e, (f e).id = e.id) :
    idsDL (updFirst id f ds) = idsDL ds := by
  induction ds with
  | nil => rfl
  | cons a t ih =>
    rw [updFirst]
    by_cases ha : a.id = id
    · rw [if_pos ha, idsDL, idsDL, hid]
    · rw [if_neg ha, idsDL, idsDL, ih, all_updFirst (fun e => by rw [hid])]

theorem idsDL_map {g : Item → Item} {ds : List Item}
    (hid : ∀ e, (g e).id = e.id) :
    idsDL (ds.map g) = idsDL ds := by
  induction ds with
  | nil => rfl
  | cons a t ih =>
    rw [List.map_cons, idsDL, idsDL, ih, hid, all_map_pres (fun e => by rw [hid])]

theorem photoOkB_congr {d : Item} {g : Item → Item} {bs : List String}
    (h : (g d).photo = d.photo) : photoOkB (g d) bs = photoOkB d bs := by
  unfold photoOkB
  rw [h]

theorem memUpdate_inv_eq (id : Nat) (name desc : Option String) (s : St) :
    invB (memUpdate id name desc s).st = invB s ∧
    noOrphB (memUpdate id name desc s).st = noOrphB s := by
  unfold memUpdate
  cases hfind : findDev id s.devices with
  | none => exact ⟨rfl, rfl⟩
  | some d =>
    simp only
    constructor
    · show invB ⟨updFirst id (applyUpd name desc) s.devices, s.nextId, s.blobs⟩ = invB s
      unfold invB
      rw [show (refsOkL (updFirst id (applyUpd name desc) s.devices) s.blobs) = refsOkL s.devices s.blobs from
          all_updFirst (fun e => photoOkB_congr (applyUpd_photo name desc e)),
        photosDL_updFirst (applyUpd_photo name desc),
        idsDL_updFirst (applyUpd_id name desc),
        show (idsBelowL (updFirst id (applyUpd name desc) s.devices) s.nextId) = idsBelowL s.devices s.nextId from
          all_updFirst (fun e => by simp [applyUpd_id name desc e])]
    · show noOrphB ⟨updFirst id (applyUpd name desc) s.devices, s.nextId, s.blobs⟩ = noOrphB s
      unfold noOrphB noOrphL
      exact all_congr_fun (fun p _ => any_updFirst (fun e => by rw [applyUpd_photo name desc e]))

theorem sqlUpdate_inv_eq (id : Nat) (name desc : Option String) (s : St) :
    invB (sqlUpdate id name desc s).st = invB s ∧
    noOrphB (sqlUpdate id name desc s).st = noOrphB s := by
  unfold sqlUpdate
  cases hfind : findDev id s.devices with
  | none => exact ⟨rfl, rfl⟩
  | some d =>
    simp only
    have hphoto : ∀ e, ((fun e => if e.id = id then applyUpd name desc e else e) e).photo = e.photo := by
      intro e
      by_cases he : e.id = id <;> simp [he, applyUpd_photo]
    have hid : ∀ e, ((fun e => if e.id = id then applyUpd name desc e else e) e).id = e.id := by
      intro e
      by_cases he : e.id = id <;> simp [he, applyUpd_id]
    constructor
    · show invB ⟨s.devices.map (fun e => if e.id = id then applyUpd name desc e else e), s.nextId, s.blobs⟩ = invB s
      unfold invB
      rw [show refsOkL (s.devices.map _) s.blobs = refsOkL s.devices s.blobs from
          all_map_pres (fun e => photoOkB_congr (hphoto e)),
        photosDL_map hphoto, idsDL_map hid,
        show idsBelowL (s.devices.map _) s.nextId = idsBelowL s.devices s.nextId from
          all_map_pres (fun e => by simp [hid e])]
    · show noOrphB ⟨s.devices.map (fun e => if e.id = id then applyUpd name desc e else e), s.nextId, s.blobs⟩ = noOrphB s
      unfold noOrphB noOrphL
      exact all_congr_fun (fun p _ => any_map_pres (fun e => by rw [hphoto e]))

/-! Preservation of the data-model invariant by ReplacePhoto.  The core
lemmas work on the decomposed device list l1 ++ d :: l2 where d is the
record found by id; they cover both variants (updFirst and map produce the
same reshaped list). -/

theorem rp_others {l1 l2 : List Item} {d : Item} {old : String}
    (hPh : (l1 ++ d :: l2).Pairwise PhotoNe) (hdp : d.photo = some old) :
    ∀ e, (e ∈ l1 ∨ e ∈ l2) → ∀ q, e.photo = some q → q ≠ old := by
  intro e he q heq
  rcases he with he | he
  · intro hqold
    exact (pairwise_middle_left hPh e he) q heq (by rw [hdp, hqold])
  · intro hqold
    exact (pairwise_middle_right hPh e he) old hdp (by rw [heq, hqold])

theorem rp_core_none {l1 l2 : List Item} {d : Item} {bs : List String} {f : String} {n : Nat}
    (hRefs : ∀ e ∈ l1 ++ d :: l2, ∀ p, e.photo = some p → p ∈ bs)
    (hPh : (l1 ++ d :: l2).Pairwise PhotoNe)
    (hIds : (l1 ++ d :: l2).Pairwise fun a e => a.id ≠ e.id)
    (hBelow : ∀ e ∈ l1 ++ d :: l2, e.id < n)
    (hf : f ∉ bs) (hdp : d.photo = none) :
    (∀ e ∈ l1 ++ { d with photo := some f } :: l2, ∀ p, e.photo = some p → p ∈ storeBlob f bs) ∧
    (l1 ++ { d with photo := some f } :: l2).Pairwise PhotoNe ∧
    ((l1 ++ { d with photo := some f } :: l2).Pairwise fun a e => a.id ≠ e.id) ∧
    (∀ e ∈ l1 ++ { d with photo := some f } :: l2, e.id < n) ∧
    ((∀ p ∈ bs, ∃ e, e ∈ l1 ++ d :: l2 ∧ e.photo = some p) →
      ∀ p ∈ storeBlob f bs, ∃ e, e ∈ l1 ++ { d with photo := some f } :: l2 ∧ e.photo = some p) := by
  have hmid : d ∈ l1 ++ d :: l2 := List.mem_append.mpr (Or.inr (List.mem_cons_self d l2))
  refine ⟨?_, ?_, ?_, ?_, ?_⟩
  · intro e he p hp
    rcases List.mem_append.mp he with he' | he'
    · exact mem_storeBlob_iff.mpr (Or.inr
        (hRefs e (List.mem_append.mpr (Or.inl he')) p hp))
    · rcases List.mem_cons.mp he' with rfl | he''
      · cases hp
        exact self_mem_storeBlob
      · exact mem_storeBlob_iff.mpr (Or.inr
          (hRefs e (List.mem_append.mpr (Or.inr (List.mem_cons_of_mem d he''))) p hp))
  · refine pairwise_replace_middle hPh ?_ ?_
    · intro e he p hep hcontra
      have : p = f := by injection hcontra.symm
      exact hf (this ▸ hRefs e (List.mem_append.mpr (Or.inl he)) p hep)
    · intro e he p hdp' hcontra
      have hpf : p = f := by injection hdp'.symm
      exact hf (hpf ▸ hRefs e
        (List.mem_append.mpr (Or.inr (List.mem_cons_of_mem d he))) p hcontra)
  · refine pairwise_replace_middle hIds ?_ ?_
    · exact fun e he => pairwise_middle_left hIds e he
    · exact fun e he => pairwise_middle_right hIds e he
  · intro e he
    rcases List.mem_append.mp he with he' | he'
    · exact hBelow e (List.mem_append.mpr (Or.inl he'))
    · rcases List.mem_cons.mp he' with rfl | he''
      · exact hBelow d hmid
      · exact hBelow e (List.mem_append.mpr (Or.inr (List.mem_cons_of_mem d he'')))
  · intro hO p hp
    rcases mem_storeBlob_iff.mp hp with rfl | hp'
    · exact ⟨{ d with photo := some p },
        List.mem_append.mpr (Or.inr (List.mem_cons_self _ l2)), rfl⟩
    · obtain ⟨e, he, hep⟩ := hO p hp'
      rcases List.mem_append.mp he with he' | he'
      · exact ⟨e, List.mem_append.mpr (Or.inl he'), hep⟩
      · rcases List.mem_cons.mp he' with rfl | he''
        · rw [hdp] at hep
          cases hep
        · exact ⟨e, List.mem_append.mpr (Or.inr (List.mem_cons_of_mem _ he'')), hep⟩

theorem rp_core_some {l1 l2 : List Item} {d : Item} {bs : List String} {f old : String} {n : Nat}
    (hRefs : ∀ e ∈ l1 ++ d :: l2, ∀ p, e.photo = some p → p ∈ bs)
    (hPh : (l1 ++ d :: l2).Pairwise PhotoNe)
    (hIds : (l1 ++ d :: l2).Pairwise fun a e => a.id ≠ e.id)
    (hBelow : ∀ e ∈ l1 ++ d :: l2, e.id < n)
    (hf : f ∉ bs) (hdp : d.photo = some old) :
    (∀ e ∈ l1 ++ { d with photo := some f } :: l2, ∀ p,
        e.photo = some p → p ∈ unlinkIfExists old (storeBlob f bs)) ∧
    (l1 ++ { d with photo := some f } :: l2).Pairwise PhotoNe ∧
    ((l1 ++ { d with photo := some f } :: l2).Pairwise fun a e => a.id ≠ e.id) ∧
    (∀ e ∈ l1 ++ { d with photo := some f } :: l2, e.id < n) ∧
    ((∀ p ∈ bs, ∃ e, e ∈ l1 ++ d :: l2 ∧ e.photo = some p) →
      ∀ p ∈ unlinkIfExists old (storeBlob f bs),
        ∃ e, e ∈ l1 ++ { d with photo := some f } :: l2 ∧ e.photo = some p) := by
  have hmid : d ∈ l1 ++ d :: l2 := List.mem_append.mpr (Or.inr (List.mem_cons_self d l2))
  have holdbs : old ∈ bs := hRefs d hmid old hdp
  have hfne : f ≠ old := fun h => hf (h ▸ holdbs)
  have hothers := rp_others hPh hdp
  refine ⟨?_, ?_, ?_, ?_, ?_⟩
  · intro e he p hp
    rcases List.mem_append.mp he with he' | he'
    · exact mem_unlink_iff.mpr
        ⟨mem_storeBlob_iff.mpr (Or.inr (hRefs e (List.mem_append.mpr (Or.inl he')) p hp)),
         hothers e (Or.inl he') p hp⟩
    · rcases List.mem_cons.mp he' with rfl | he''
      · cases hp
        exact mem_unlink_iff.mpr ⟨self_mem_storeBlob, hfne⟩
      · exact mem_unlink_iff.mpr
          ⟨mem_storeBlob_iff.mpr (Or.inr (hRefs e
            (List.mem_append.mpr (Or.inr (List.mem_cons_of_mem d he''))) p hp)),
           hothers e (Or.inr he'') p hp⟩
  · refine pairwise_replace_middle hPh ?_ ?_
    · intro e he p hep hcontra
      have : p = f := by injection hcontra.symm
      exact hf (this ▸ hRefs e (List.mem_append.mpr (Or.inl he)) p hep)
    · intro e he p hdp' hcontra
      have hpf : p = f := by injection hdp'.symm
      exact hf (hpf ▸ hRefs e
        (List.mem_append.mpr (Or.inr (List.mem_cons_of_mem d he))) p hcontra)
  · refine pairwise_replace_middle hIds ?_ ?_
    · exact fun e he => pairwise_middle_left hIds e he
    · exact fun e he => pairwise_middle_right hIds e he
  · intro e he
    rcases List.mem_append.mp he with he' | he'
    · exact hBelow e (List.mem_append.mpr (Or.inl he'))
    · rcases List.mem_cons.mp he' with rfl | he''
      · exact hBelow d hmid
      · exact hBelow e (List.mem_append.mpr (Or.inr (List.mem_cons_of_mem d he'')))
  · intro hO p hp
    obtain ⟨hp1, hpne⟩ := mem_unlink_iff.mp hp
    rcases mem_storeBlob_iff.mp hp1 with rfl | hp'
    · exact ⟨{ d with photo := some p },
        List.mem_append.mpr (Or.inr (List.mem_cons_self _ l2)), rfl⟩
    · obtain ⟨e, he, hep⟩ := hO p hp'
      rcases List.mem_append.mp he with he' | he'
      · exact ⟨e, List.mem_append.mpr (Or.inl he'), hep⟩
      · rcases List.mem_cons.mp he' with rfl | he''
        · rw [hdp] at hep
          exact absurd (by injection hep) (Ne.symm hpne)
        · exact ⟨e, List.mem_append.mpr (Or.inr (List.mem_cons_of_mem _ he'')), hep⟩

theorem memReplacePhoto_inv (id : Nat) (file : Option String) (s : St)
    (hI : invB s = true) (hf : ∀ p, file = some p → p ∉ s.blobs) :
    invB (memReplacePhoto id file s).st = true ∧
    ((memReplacePhoto id file s).resp.status ≤ 299 →
      noOrphB s = true → noOrphB (memReplacePhoto id file s).st = true) := by
  obtain ⟨hRefs, hPh, hIds, hBelow⟩ := invB_iff.mp hI
  cases file with
  | none =>
    simp only [memReplacePhoto, multer]
    cases hfind : findDev id s.devices with
    | none => exact ⟨hI, by intro h; simp at h⟩
    | some d => exact ⟨hI, by intro h; simp at h⟩
  | some f =>
    have hf' : f ∉ s.blobs := hf f rfl
    simp only [memReplacePhoto, multer]
    cases hfind : findDev id s.devices with
    | none =>
      simp only
      constructor
      · rw [invB_iff]
        exact ⟨refsOk_mono (fun q hq => mem_storeBlob_iff.mpr (Or.inr hq)) hRefs,
          hPh, hIds, hBelow⟩
      · intro h; omega
    | some d =>
      obtain ⟨l1, l2, hds, hl1, hdid⟩ := findDev_split hfind
      rw [hds] at hRefs hPh hIds hBelow
      simp only
      rw [hds, updFirst_append hl1 hdid]
      cases hdp : d.photo with
      | none =>
        have core := rp_core_none hRefs hPh hIds hBelow hf' hdp
        constructor
        · rw [invB_iff]
          exact ⟨core.1, core.2.1, core.2.2.1, core.2.2.2.1⟩
        · intro _ hO
          rw [noOrphB] at hO ⊢
          rw [noOrphL_iff]
          have hO' := noOrphL_iff.mp hO
          rw [hds] at hO'
          exact core.2.2.2.2 hO'
      | some old =>
        have core := rp_core_some hRefs hPh hIds hBelow hf' hdp
        constructor
        · rw [invB_iff]
          exact ⟨core.1, core.2.1, core.2.2.1, core.2.2.2.1⟩
        · intro _ hO
          rw [noOrphB] at hO ⊢
          rw [noOrphL_iff]
          have hO' := noOrphL_iff.mp hO
          rw [hds] at hO'
          exact core.2.2.2.2 hO'

theorem sqlReplacePhoto_inv (id : Nat) (file : Option String) (s : St)
    (hI : invB s = true) (hf : ∀ p, file = some p → p ∉ s.blobs) :
    invB (sqlReplacePhoto id file s).st = true ∧
    ((sqlReplacePhoto id file s).resp.status ≤ 299 →
      noOrphB s = true → noOrphB (sqlReplacePhoto id file s).st = true) := by
  obtain ⟨hRefs, hPh, hIds, hBelow⟩ := invB_iff.mp hI
  cases file with
  | none =>
    simp only [sqlReplacePhoto, multer]
    exact ⟨hI, by intro h; omega⟩
  | some f =>
    have hf' : f ∉ s.blobs := hf f rfl
    simp only [sqlReplacePhoto, multer]
    cases hfind : findDev id s.devices with
    | none =>
      simp only
      constructor
      · rw [invB_iff]
        rw [unlink_storeBlob_fresh hf']
        exact ⟨hRefs, hPh, hIds, hBelow⟩
      · intro h; omega
    | some d =>
      obtain ⟨l1, l2, hds, hl1, hdid⟩ := findDev_split hfind
      rw [hds] at hRefs hPh hIds hBelow
      have hl2 : ∀ e ∈ l2, e.id ≠ id := by
        intro e he
        have := pairwise_middle_right hIds e he
        rw [hdid] at this
        exact fun hc => this (hc ▸ rfl)
      simp only
      rw [hds, map_cond_append hl1 hl2 hdid]
      cases hdp : d.photo with
      | none =>
        have core := rp_core_none hRefs hPh hIds hBelow hf' hdp
        constructor
        · rw [invB_iff]
          exact ⟨core.1, core.2.1, core.2.2.1, core.2.2.2.1⟩
        · intro _ hO
          rw [noOrphB] at hO ⊢
          rw [noOrphL_iff]
          have hO' := noOrphL_iff.mp hO
          rw [hds] at hO'
          exact core.2.2.2.2 hO'
      | some old =>
        have core := rp_core_some hRefs hPh hIds hBelow hf' hdp
        constructor
        · rw [invB_iff]
          exact ⟨core.1, core.2.1, core.2.2.1, core.2.2.2.1⟩
        · intro _ hO
          rw [noOrphB] at hO ⊢
          rw [noOrphL_iff]
          have hO' := noOrphL_iff.mp hO
          rw [hds] at hO'
          exact core.2.2.2.2 hO'

/-! Preservation of the data-model invariant by Delete. -/

theorem del_core_none {l1 l2 : List Item} {d : Item} {bs : List String} {n : Nat}
    (hRefs : ∀ e ∈ l1 ++ d :: l2, ∀ p, e.photo = some p → p ∈ bs)
    (hPh : (l1 ++ d :: l2).Pairwise PhotoNe)
    (hIds : (l1 ++ d :: l2).Pairwise fun a e => a.id ≠ e.id)
    (hBelow : ∀ e ∈ l1 ++ d :: l2, e.id < n)
    (hdp : d.photo = none) :
    (∀ e ∈ l1 ++ l2, ∀ p, e.photo = some p → p ∈ bs) ∧
    (l1 ++ l2).Pairwise PhotoNe ∧
    ((l1 ++ l2).Pairwise fun a e => a.id ≠ e.id) ∧
    (∀ e ∈ l1 ++ l2, e.id < n) ∧
    ((∀ p ∈ bs, ∃ e, e ∈ l1 ++ d :: l2 ∧ e.photo = some p) →
      ∀ p ∈ bs, ∃ e, e ∈ l1 ++ l2 ∧ e.photo = some p) := by
  have hsub : ∀ e ∈ l1 ++ l2, e ∈ l1 ++ d :: l2 := by
    intro e he
    rcases List.mem_append.mp he with he' | he'
    · exact List.mem_append.mpr (Or.inl he')
    · exact List.mem_append.mpr (Or.inr (List.mem_cons_of_mem d he'))
  refine ⟨fun e he => hRefs e (hsub e he), pairwise_drop_middle hPh,
    pairwise_drop_middle hIds, fun e he => hBelow e (hsub e he), ?_⟩
  intro hO p hp
  obtain ⟨e, he, hep⟩ := hO p hp
  rcases List.mem_append.mp he with he' | he'
  · exact ⟨e, List.mem_append.mpr (Or.inl he'), hep⟩
  · rcases List.mem_cons.mp he' with rfl | he''
    · rw [hdp] at hep
      cases hep
    · exact ⟨e, List.mem_append.mpr (Or.inr he''), hep⟩

theorem del_core_some {l1 l2 : List Item} {d : Item} {bs : List String} {old : String} {n : Nat}
    (hRefs : ∀ e ∈ l1 ++ d :: l2, ∀ p, e.photo = some p → p ∈ bs)
    (hPh : (l1 ++ d :: l2).Pairwise PhotoNe)
    (hIds : (l1 ++ d :: l2).Pairwise fun a e => a.id ≠ e.id)
    (hBelow : ∀ e ∈ l1 ++ d :: l2, e.id < n)
    (hdp : d.photo = some old) :
    (∀ e ∈ l1 ++ l2, ∀ p, e.photo = some p → p ∈ unlinkIfExists old bs) ∧
    (l1 ++ l2).Pairwise PhotoNe ∧
    ((l1 ++ l2).Pairwise fun a e => a.id ≠ e.id) ∧
    (∀ e ∈ l1 ++ l2, e.id < n) ∧
    ((∀ p ∈ bs, ∃ e, e ∈ l1 ++ d :: l2 ∧ e.photo = some p) →
      ∀ p ∈ unlinkIfExists old bs, ∃ e, e ∈ l1 ++ l2 ∧ e.photo = some p) := by
  have hsub : ∀ e ∈ l1 ++ l2, e ∈ l1 ++ d :: l2 := by
    intro e he
    rcases List.mem_append.mp he with he' | he'
    · exact List.mem_append.mpr (Or.inl he')
    · exact List.mem_append.mpr (Or.inr (List.mem_cons_of_mem d he'))
  have hothers := rp_others hPh hdp
  refine ⟨?_, pairwise_drop_middle hPh, pairwise_drop_middle hIds,
    fun e he => hBelow e (hsub e he), ?_⟩
  · intro e he p hp
    refine mem_unlink_iff.mpr ⟨hRefs e (hsub e he) p hp, ?_⟩
    rcases List.mem_append.mp he with he' | he'
    · exact hothers e (Or.inl he') p hp
    · exact hothers e (Or.inr he') p hp
  · intro hO p hp
    obtain ⟨hp1, hpne⟩ := mem_unlink_iff.mp hp
    obtain ⟨e, he, hep⟩ := hO p hp1
    rcases List.mem_append.mp he with he' | he'
    · exact ⟨e, List.mem_append.mpr (Or.inl he'), hep⟩
    · rcases List.mem_cons.mp he' with rfl | he''
      · rw [hdp] at hep
        exact absurd (by injection hep) (Ne.symm hpne)
      · exact ⟨e, List.mem_append.mpr (Or.inr he''), hep⟩

theorem memDelete_inv (id : Nat) (s : St) (hI : invB s = true) :
    invB (memDelete id s).st = true ∧
    ((memDelete id s).resp.status ≤ 299 →
      noOrphB s = true → noOrphB (memDelete id s).st = true) := by
  obtain ⟨hRefs, hPh, hIds, hBelow⟩ := invB_iff.mp hI
  unfold memDelete
  cases hfind : findDev id s.devices with
  | none => exact ⟨hI, by intro h; simp at h⟩
  | some d =>
    obtain ⟨l1, l2, hds, hl1, hdid⟩ := findDev_split hfind
    rw [hds] at hRefs hPh hIds hBelow
    simp only
    rw [hds, eraseFirst_append hl1 hdid]
    cases hdp : d.photo with
    | none =>
      have core := del_core_none hRefs hPh hIds hBelow hdp
      refine ⟨?_, ?_⟩
      · rw [invB_iff]
        exact ⟨core.1, core.2.1, core.2.2.1, core.2.2.2.1⟩
      · intro _ hO
        rw [noOrphB] at hO ⊢
        rw [noOrphL_iff]
        have hO' := noOrphL_iff.mp hO
        rw [hds] at hO'
        exact core.2.2.2.2 hO'
    | some old =>
      have core := del_core_some hRefs hPh hIds hBelow hdp
      refine ⟨?_, ?_⟩
      · rw [invB_iff]
        exact ⟨core.1, core.2.1, core.2.2.1, core.2.2.2.1⟩
      · intro _ hO
        rw [noOrphB] at hO ⊢
        rw [noOrphL_iff]
        have hO' := noOrphL_iff.mp hO
        rw [hds] at hO'
        exact core.2.2.2.2 hO'

theorem sqlDelete_inv (id : Nat) (s : St) (hI : invB s = true) :
    invB (sqlDelete id s).st = true ∧
    ((sqlDelete id s).resp.status ≤ 299 →
      noOrphB s = true → noOrphB (sqlDelete id s).st = true) := by
  obtain ⟨hRefs, hPh, hIds, hBelow⟩ := invB_iff.mp hI
  unfold sqlDelete
  cases hfind : findDev id s.devices with
  | none => exact ⟨hI, by intro h; simp at h⟩
  | some d =>
    obtain ⟨l1, l2, hds, hl1, hdid⟩ := findDev_split hfind
    rw [hds] at hRefs hPh hIds hBelow
    have hl2 : ∀ e ∈ l2, e.id ≠ id := by
      intro e he
      have := pairwise_middle_right hIds e he
      rw [hdid] at this
      exact fun hc => this (hc ▸ rfl)
    simp only
    rw [hds, filter_cond_append hl1 hl2 hdid]
    cases hdp : d.photo with
    | none =>
      have core := del_core_none hRefs hPh hIds hBelow hdp
      refine ⟨?_, ?_⟩
      · rw [invB_iff]
        exact ⟨core.1, core.2.1, core.2.2.1, core.2.2.2.1⟩
      · intro _ hO
        rw [noOrphB] at hO ⊢
        rw [noOrphL_iff]
        have hO' := noOrphL_iff.mp hO
        rw [hds] at hO'
        exact core.2.2.2.2 hO'
    | some old =>
      have core := del_core_some hRefs hPh hIds hBelow hdp
      refine ⟨?_, ?_⟩
      · rw [invB_iff]
        exact ⟨core.1, core.2.1, core.2.2.1, core.2.2.2.1⟩
      · intro _ hO
        rw [noOrphB] at hO ⊢
        rw [noOrphL_iff]
        have hO' := noOrphL_iff.mp hO
        rw [hds] at hO'
        exact core.2.2.2.2 hO'

/-! Claim theorems. -/

/-- C1, counterexample: the claim "after any operation's success or failure
path there are no orphan blobs" is false.  From the empty state (which
satisfies the invariant and has no orphans), Register with a
whitespace-only name and an uploaded photo fails with 400 in both variants
but leaves the just-written blob "up1" in the store with no item
referencing it: an orphan blob created by a failure path. -/
theorem c1_counterexample :
    invB ⟨[], 1, []⟩ = true ∧ noOrphB ⟨[], 1, []⟩ = true ∧
    (memStep (Op.register (some " ") none (some "up1")) ⟨[], 1, []⟩).resp.status = 400 ∧
    (memStep (Op.register (some " ") none (some "up1")) ⟨[], 1, []⟩).st.devices = [] ∧
    (memStep (Op.register (some " ") none (some "up1")) ⟨[], 1, []⟩).st.blobs = ["up1"] ∧
    noOrphB (memStep (Op.register (some " ") none (some "up1")) ⟨[], 1, []⟩).st = false ∧
    (sqlStep (Op.register (some " ") none (some "up1")) ⟨[], 1, []⟩).resp.status = 400 ∧
    noOrphB (sqlStep (Op.register (some " ") none (some "up1")) ⟨[], 1, []⟩).st = false := by
  decide

/-- C1 (amended): from any state satisfying the data-model invariant (valid
photo references, pairwise-distinct blob ownership, distinct ids below the
allocation counter), and with the multer-generated upload path fresh, every
operation (Register, UpdateFields, ReplacePhoto, Delete) of both variants
preserves the invariant — in particular no dangling photo references are
ever introduced, on success or failure paths — and every operation that
completes successfully (2xx) also preserves the no-orphan-blob property.
(Failure paths may orphan blobs; see the counterexample.) -/
theorem c1_invariant_amended (op : Op) (s : St)
    (hI : invB s = true) (hf : ∀ p, opFile op = some p → p ∉ s.blobs) :
    invB (memStep op s).st = true ∧ invB (sqlStep op s).st = true ∧
    ((memStep op s).resp.status ≤ 299 →
      noOrphB s = true → noOrphB (memStep op s).st = true) ∧
    ((sqlStep op s).resp.status ≤ 299 →
      noOrphB s = true → noOrphB (sqlStep op s).st = true) := by
  cases op with
  | register name desc file =>
    have hmem := memRegister_inv name desc file s hI hf
    have heq := register_states_eq name desc file s
    refine ⟨hmem.1, ?_, hmem.2, ?_⟩
    · show invB (sqlRegister name desc file s).st = true
      rw [heq.1]
      exact hmem.1
    · show (sqlRegister name desc file s).resp.status ≤ 299 →
        noOrphB s = true → noOrphB (sqlRegister name desc file s).st = true
      intro h hO
      rw [heq.2] at h
      rw [heq.1]
      exact hmem.2 h hO
  | updateFields i nm dsc =>
    have hm := memUpdate_inv_eq i nm dsc s
    have hs := sqlUpdate_inv_eq i nm dsc s
    refine ⟨?_, ?_, ?_, ?_⟩
    · show invB (memUpdate i nm dsc s).st = true
      rw [hm.1]; exact hI
    · show invB (sqlUpdate i nm dsc s).st = true
      rw [hs.1]; exact hI
    · intro _ hO
      show noOrphB (memUpdate i nm dsc s).st = true
      rw [hm.2]; exact hO
    · intro _ hO
      show noOrphB (sqlUpdate i nm dsc s).st = true
      rw [hs.2]; exact hO
  | replacePhoto i f =>
    have hm := memReplacePhoto_inv i f s hI hf
    have hs := sqlReplacePhoto_inv i f s hI hf
    exact ⟨hm.1, hs.1, hm.2, hs.2⟩
  | delete i =>
    have hm := memDelete_inv i s hI
    have hs := sqlDelete_inv i s hI
    exact ⟨hm.1, hs.1, hm.2, hs.2⟩

/-- C1 (amended), witness: the invariant-preservation theorem applied to a
concrete ReplacePhoto on the one-item state, with all hypotheses discharged
by evaluation. -/
theorem c1_invariant_amended_witness :
    invB wSt = true ∧ "b" ∉ wSt.blobs ∧
    invB (memStep (Op.replacePhoto 1 (some "b")) wSt).st = true ∧
    invB (sqlStep (Op.replacePhoto 1 (some "b")) wSt).st = true ∧
    noOrphB (memStep (Op.replacePhoto 1 (some "b")) wSt).st = true := by
  have h := c1_invariant_amended (Op.replacePhoto 1 (some "b")) wSt (by decide)
    (fun p hp => by cases hp; decide)
  exact ⟨by decide, by decide, h.1, h.2.1, h.2.2.1 (by decide) (by decide)⟩

/-- C2, counterexample: the claim says the just-written blob is deleted
before the validation error is returned; in both variants Register with a
whitespace-only name and an uploaded photo returns 400, creates no record,
and the blob "up1" is still in the store. -/
theorem c2_counterexample :
    (memRegister (some " ") none (some "up1") ⟨[], 1, []⟩).resp.status = 400 ∧
    (memRegister (some " ") none (some "up1") ⟨[], 1, []⟩).st.devices = [] ∧
    (memRegister (some " ") none (some "up1") ⟨[], 1, []⟩).st.blobs = ["up1"] ∧
    (sqlRegister (some " ") none (some "up1") ⟨[], 1, []⟩).resp.status = 400 ∧
    (sqlRegister (some " ") none (some "up1") ⟨[], 1, []⟩).st.devices = [] ∧
    (sqlRegister (some " ") none (some "up1") ⟨[], 1, []⟩).st.blobs = ["up1"] := by
  decide

/-- C2 (amended): Register with an empty or whitespace-only name fails with
400 in both variants and creates no item record (devices and allocation
counter unchanged), but the just-written blob is NOT deleted: when a photo
was uploaded, its path remains in the blob store as an orphan. -/
theorem c2_register_validation_amended (name desc file : Option String) (s : St)
    (h : nameMissing name = true) :
    (memRegister name desc file s).resp.status = 400 ∧
    (memRegister name desc file s).st.devices = s.devices ∧
    (memRegister name desc file s).st.nextId = s.nextId ∧
    (∀ p, file = some p → p ∈ (memRegister name desc file s).st.blobs) ∧
    (sqlRegister name desc file s).resp.status = 400 ∧
    (sqlRegister name desc file s).st.devices = s.devices ∧
    (sqlRegister name desc file s).st.nextId = s.nextId ∧
    (∀ p, file = some p → p ∈ (sqlRegister name desc file s).st.blobs) := by
  cases file with
  | none =>
    refine ⟨?_, ?_, ?_, ?_, ?_, ?_, ?_, ?_⟩ <;>
      simp [memRegister, sqlRegister, multer, h]
  | some f =>
    refine ⟨?_, ?_, ?_, ?_, ?_, ?_, ?_, ?_⟩ <;>
      simp [memRegister, sqlRegister, multer, h] <;>
      exact self_mem_storeBlob

/-- C2 (amended), witness: the amended theorem applied to the concrete
whitespace-name registration with upload path "up1" from the empty state. -/
theorem c2_register_validation_amended_witness :
    nameMissing (some " ") = true ∧
    (memRegister (some " ") none (some "up1") ⟨[], 1, []⟩).resp.status = 400 ∧
    (memRegister (some " ") none (some "up1") ⟨[], 1, []⟩).st.devices = [] ∧
    "up1" ∈ (memRegister (some " ") none (some "up1") ⟨[], 1, []⟩).st.blobs ∧
    "up1" ∈ (sqlRegister (some " ") none (some "up1") ⟨[], 1, []⟩).st.blobs := by
  have h := c2_register_validation_amended (some " ") none (some "up1") ⟨[], 1, []⟩ (by decide)
  exact ⟨by decide, h.1, h.2.1, h.2.2.2.1 "up1" rfl, h.2.2.2.2.2.2.2 "up1" rfl⟩

/-- C3, counterexample: in the in-memory variant a successful ReplacePhoto
on an item that already has a photo deletes the OLD blob before the new
reference is recorded: the trace is store, delBlob, setRef — the delBlob of
the old blob "a" precedes the setRef of the new reference. -/
theorem c3_counterexample :
    (memReplacePhoto 1 (some "b") wSt).resp.status = 200 ∧
    (memReplacePhoto 1 (some "b") wSt).tr =
      [Ev.store "b", Ev.delBlob "a", Ev.setRef 1 (some "b")] := by
  decide

/-- C3 (amended): for a successful ReplacePhoto on an existing item that
already has a photo present in the store, the SQL variant performs store
new blob, record new reference, then delete old blob (delete-after-swap,
as claimed), while the in-memory variant performs store new blob, delete
old blob, then record the new reference (delete-before-swap). -/
theorem c3_replace_order_amended (id : Nat) (f : String) (s : St) (d : Item) (old : String)
    (hd : findDev id s.devices = some d) (hold : d.photo = some old)
    (holdmem : old ∈ s.blobs) :
    (sqlReplacePhoto id (some f) s).resp.status = 200 ∧
    (sqlReplacePhoto id (some f) s).tr =
      [Ev.store f, Ev.setRef id (some f), Ev.delBlob old] ∧
    (memReplacePhoto id (some f) s).resp.status = 200 ∧
    (memReplacePhoto id (some f) s).tr =
      [Ev.store f, Ev.delBlob old, Ev.setRef id (some f)] := by
  have hmem : old ∈ storeBlob f s.blobs := mem_storeBlob_iff.mpr (Or.inr holdmem)
  refine ⟨?_, ?_, ?_, ?_⟩ <;>
    simp [sqlReplacePhoto, memReplacePhoto, multer, hd, hold, delBlobEv, hmem]

/-- C3 (amended), witness: the ordering theorem applied to the concrete
one-item state, replacing blob "a" by "b" on item 1. -/
theorem c3_replace_order_amended_witness :
    findDev 1 wSt.devices = some ⟨1, "Laptop", "", some "a"⟩ ∧
    (sqlReplacePhoto 1 (some "b") wSt).tr =
      [Ev.store "b", Ev.setRef 1 (some "b"), Ev.delBlob "a"] ∧
    (memReplacePhoto 1 (some "b") wSt).tr =
      [Ev.store "b", Ev.delBlob "a", Ev.setRef 1 (some "b")] := by
  have h := c3_replace_order_amended 1 "b" wSt ⟨1, "Laptop", "", some "a"⟩ "a"
    (by decide) rfl (by decide)
  exact ⟨by decide, h.2.1, h.2.2.2⟩

/-- C4, counterexample: in the in-memory variant, ReplacePhoto on a missing
item (id 7) with an uploaded file returns 404 but does NOT delete the
just-uploaded blob: "b" is still in the store afterwards, contradicting the
claim that the uploaded blob is deleted so it is not orphaned. -/
theorem c4_counterexample :
    (memReplacePhoto 7 (some "b") wSt).resp.status = 404 ∧
    (memReplacePhoto 7 (some "b") wSt).st.devices = wSt.devices ∧
    "b" ∈ (memReplacePhoto 7 (some "b") wSt).st.blobs := by
  decide

/-- C4 (amended): ReplacePhoto failure behaviour differs by variant.  SQL
variant: a missing file gives 400 with the state unchanged (this check runs
before the existence check, so a missing item with no file also gives 400,
not 404); a missing item with an uploaded fresh file gives 404, leaves the
records unchanged and removes the just-uploaded blob again.  In-memory
variant: the existence check runs first, so a missing item gives 404 and
the just-uploaded blob is NOT deleted (it stays in the store); an existing
item with no file gives 400 with the state unchanged. -/
theorem c4_replace_failures_amended (id : Nat) (f : String) (s : St) :
    ((sqlReplacePhoto id none s).resp.status = 400 ∧ (sqlReplacePhoto id none s).st = s) ∧
    (findDev id s.devices = none → f ∉ s.blobs →
      (sqlReplacePhoto id (some f) s).resp.status = 404 ∧
      (sqlReplacePhoto id (some f) s).st.devices = s.devices ∧
      (sqlReplacePhoto id (some f) s).st.blobs = s.blobs) ∧
    (findDev id s.devices = none →
      (memReplacePhoto id (some f) s).resp.status = 404 ∧
      (memReplacePhoto id (some f) s).st.devices = s.devices ∧
      f ∈ (memReplacePhoto id (some f) s).st.blobs) ∧
    (∀ d, findDev id s.devices = some d →
      (memReplacePhoto id none s).resp.status = 400 ∧ (memReplacePhoto id none s).st = s) ∧
    (findDev id s.devices = none →
      (memReplacePhoto id none s).resp.status = 404 ∧ (memReplacePhoto id none s).st = s) := by
  refine ⟨⟨rfl, rfl⟩, ?_, ?_, ?_, ?_⟩
  · intro hfind hfresh
    refine ⟨?_, ?_, ?_⟩ <;>
      simp [sqlReplacePhoto, multer, hfind, unlink_storeBlob_fresh hfresh]
  · intro hfind
    refine ⟨?_, ?_, ?_⟩
    · simp [memReplacePhoto, multer, hfind]
    · simp [memReplacePhoto, multer, hfind]
    · simp only [memReplacePhoto, multer, hfind]
      exact self_mem_storeBlob
  · intro d hfind
    refine ⟨?_, ?_⟩ <;> simp [memReplacePhoto, multer, hfind]
  · intro hfind
    refine ⟨?_, ?_⟩ <;> simp [memReplacePhoto, multer, hfind]

/-- C4 (amended), witness: the amended theorem applied at id 7 (absent) and
id 1 (present) on the one-item state. -/
theorem c4_replace_failures_amended_witness :
    findDev 7 wSt.devices = none ∧
    (sqlReplacePhoto 7 (some "b") wSt).resp.status = 404 ∧
    (sqlReplacePhoto 7 (some "b") wSt).st.blobs = wSt.blobs ∧
    (memReplacePhoto 7 (some "b") wSt).resp.status = 404 ∧
    "b" ∈ (memReplacePhoto 7 (some "b") wSt).st.blobs ∧
    (memReplacePhoto 1 none wSt).resp.status = 400 ∧
    (sqlReplacePhoto 7 none wSt).resp.status = 400 := by
  have h := c4_replace_failures_amended 7 "b" wSt
  have h1 := c4_replace_failures_amended 1 "b" wSt
  exact ⟨by decide, (h.2.1 (by decide) (by decide)).1, (h.2.1 (by decide) (by decide)).2.2,
    (h.2.2.1 (by decide)).1, (h.2.2.1 (by decide)).2.2,
    (h1.2.2.2.1 ⟨1, "Laptop", "", some "a"⟩ (by decide)).1, h.1.1⟩

/-- C5, counterexample: the claim says the repository record is deleted
first and the blob afterwards; in the in-memory variant Delete unlinks the
blob BEFORE splicing out the record, as the trace shows (the SQL variant
has the claimed order). -/
theorem c5_counterexample :
    (memDelete 1 wSt).resp.status = 200 ∧
    (memDelete 1 wSt).tr = [Ev.delBlob "a", Ev.delRec 1] ∧
    (sqlDelete 1 wSt).tr = [Ev.delRec 1, Ev.delBlob "a"] := by
  decide

/-- C5 (amended): Delete of an absent id fails with 404 leaving the state
unchanged in both variants.  Delete of an existing item returns 200; the
SQL variant deletes the record first and then best-effort unlinks the blob,
while the in-memory variant unlinks the blob first and then removes the
record; in both variants, afterwards GetById and GetPhoto on that id return
404 and the previously owned blob is no longer in the store. -/
theorem c5_delete_amended (id : Nat) (s : St) (hI : invB s = true) :
    (findDev id s.devices = none →
      (memDelete id s).resp.status = 404 ∧ (memDelete id s).st = s ∧
      (sqlDelete id s).resp.status = 404 ∧ (sqlDelete id s).st = s) ∧
    (∀ d, findDev id s.devices = some d →
      (memDelete id s).resp.status = 200 ∧ (sqlDelete id s).resp.status = 200 ∧
      (sqlDelete id s).tr = Ev.delRec id :: cleanupEv d s.blobs ∧
      (memDelete id s).tr = cleanupEv d s.blobs ++ [Ev.delRec id] ∧
      (memGetById id (memDelete id s).st).status = 404 ∧
      (sqlGetById id (sqlDelete id s).st).status = 404 ∧
      (memGetPhoto id (memDelete id s).st).status = 404 ∧
      (sqlGetPhoto id (sqlDelete id s).st).status = 404 ∧
      (∀ p, d.photo = some p →
        p ∉ (memDelete id s).st.blobs ∧ p ∉ (sqlDelete id s).st.blobs)) := by
  obtain ⟨hRefs, hPh, hIds, hBelow⟩ := invB_iff.mp hI
  constructor
  · intro hfind
    refine ⟨?_, ?_, ?_, ?_⟩ <;> simp [memDelete, sqlDelete, hfind]
  · intro d hfind
    obtain ⟨l1, l2, hds, hl1, hdid⟩ := findDev_split hfind
    rw [hds] at hIds
    have hl2 : ∀ e ∈ l2, e.id ≠ id := by
      intro e he
      have := pairwise_middle_right hIds e he
      rw [hdid] at this
      exact fun hc => this (hc ▸ rfl)
    have herase : eraseFirst id s.devices = l1 ++ l2 := by
      rw [hds]
      exact eraseFirst_append hl1 hdid
    have hfilter : s.devices.filter (fun e => decide (e.id ≠ id)) = l1 ++ l2 := by
      rw [hds]
      exact filter_cond_append hl1 hl2 hdid
    have hnone : findDev id (l1 ++ l2) = none := by
      rw [findDev_append_of_none hl1]
      exact findDev_eq_none.mpr hl2
    have hmemdev : (memDelete id s).st.devices = l1 ++ l2 := by
      simp [memDelete, hfind, herase]
    have hsqldev : (sqlDelete id s).st.devices = l1 ++ l2 := by
      simp only [sqlDelete, hfind]
      exact hfilter
    refine ⟨?_, ?_, ?_, ?_, ?_, ?_, ?_, ?_, ?_⟩
    · simp [memDelete, hfind]
    · simp [sqlDelete, hfind]
    · cases hdp : d.photo <;> simp [sqlDelete, hfind, hdp, cleanupEv]
    · cases hdp : d.photo <;> simp [memDelete, hfind, hdp, cleanupEv]
    · simp [memGetById, hmemdev, hnone]
    · simp [sqlGetById, hsqldev, hnone]
    · simp [memGetPhoto, hmemdev, hnone]
    · simp [sqlGetPhoto, hsqldev, hnone]
    · intro p hp
      constructor <;> simp [memDelete, sqlDelete, hfind, hp, mem_unlink_iff]

/-- C5 (amended), witness: the delete theorem applied to id 1 on the
one-item state, checking status, traces, the 404 of subsequent reads, and
that the blob "a" is gone. -/
theorem c5_delete_amended_witness :
    invB wSt = true ∧ findDev 1 wSt.devices = some ⟨1, "Laptop", "", some "a"⟩ ∧
    (memDelete 1 wSt).resp.status = 200 ∧
    (memGetById 1 (memDelete 1 wSt).st).status = 404 ∧
    (sqlGetPhoto 1 (sqlDelete 1 wSt).st).status = 404 ∧
    "a" ∉ (memDelete 1 wSt).st.blobs := by
  have h := (c5_delete_amended 1 wSt (by decide)).2 ⟨1, "Laptop", "", some "a"⟩ (by decide)
  exact ⟨by decide, by decide, h.1, h.2.2.2.2.1, h.2.2.2.2.2.2.2.1,
    (h.2.2.2.2.2.2.2.2 "a" rfl).1⟩

/-- C6, counterexample: in the in-memory variant a successful Register with
a photo returns the raw device record with no photo_url field at all, so
the claim that every successful Register response includes a derived
photo_url (present iff a photo was stored) is false. -/
theorem c6_counterexample :
    (memRegister (some "Laptop") none (some "up1") ⟨[], 1, []⟩).resp.status = 201 ∧
    (memRegister (some "Laptop") none (some "up1") ⟨[], 1, []⟩).st.devices =
      [⟨1, "Laptop", "", some "up1"⟩] ∧
    respHasKey "photo_url" (memRegister (some "Laptop") none (some "up1") ⟨[], 1, []⟩).resp
      = false := by
  decide

/-- C6 (amended): for every successful Register, the SQL variant returns a
photo_url key bound to the URL /inventory/id/photo of the assigned id when
a photo was stored and to JSON null otherwise, and never a raw photo path;
the in-memory variant returns the raw record — with the storage path under
the photo key — and no photo_url key at all. -/
theorem c6_register_photo_url_amended (name desc file : Option String) (s : St)
    (h : nameMissing name = false) :
    respLookup "photo_url" (sqlRegister name desc file s).resp =
      some (match file with
            | none => JVal.jnull
            | some _ => JVal.str (photoUrl s.nextId)) ∧
    respHasKey "photo" (sqlRegister name desc file s).resp = false ∧
    respHasKey "photo_url" (memRegister name desc file s).resp = false ∧
    respLookup "photo" (memRegister name desc file s).resp = some (photoJ file) := by
  cases file <;> cases desc <;>
    simp [sqlRegister, memRegister, multer, h, respLookup, respHasKey, lookupJ, hasKey,
      itemJ, photoJ]

/-- C6 (amended), witness: the amended theorem applied to a concrete
registration with a photo from the empty state (assigned id 1). -/
theorem c6_register_photo_url_amended_witness :
    nameMissing (some "Laptop") = false ∧
    respLookup "photo_url" (sqlRegister (some "Laptop") none (some "up1") ⟨[], 1, []⟩).resp =
      some (JVal.str "/inventory/1/photo") ∧
    respHasKey "photo" (sqlRegister (some "Laptop") none (some "up1") ⟨[], 1, []⟩).resp = false ∧
    respHasKey "photo_url" (memRegister (some "Laptop") none (some "up1") ⟨[], 1, []⟩).resp
      = false := by
  have h := c6_register_photo_url_amended (some "Laptop") none (some "up1") ⟨[], 1, []⟩
    (by decide)
  refine ⟨by decide, ?_, h.2.1, h.2.2.1⟩
  rw [h.1]
  decide

/-- C7: UpdateFields on an absent id fails with 404 and leaves the state
unchanged in both variants; on an existing item both variants return 200
and store exactly the truthiness-filtered update: a provided non-empty name
replaces the name, a provided non-empty description replaces the
description, an omitted or empty field leaves the stored value unchanged,
and id and photo are untouched; the blob store is untouched. -/
theorem c7_update_fields (id : Nat) (name desc : Option String) (s : St) :
    (findDev id s.devices = none →
      (memUpdate id name desc s).resp.status = 404 ∧ (memUpdate id name desc s).st = s ∧
      (sqlUpdate id name desc s).resp.status = 404 ∧ (sqlUpdate id name desc s).st = s) ∧
    (∀ d, findDev id s.devices = some d →
      (memUpdate id name desc s).resp.status = 200 ∧
      (sqlUpdate id name desc s).resp.status = 200 ∧
      findDev id (memUpdate id name desc s).st.devices = some (applyUpd name desc d) ∧
      findDev id (sqlUpdate id name desc s).st.devices = some (applyUpd name desc d) ∧
      (memUpdate id name desc s).st.blobs = s.blobs ∧
      (sqlUpdate id name desc s).st.blobs = s.blobs ∧
      (truthy name = true → (applyUpd name desc d).inventory_name = name.getD "") ∧
      (truthy name = false → (applyUpd name desc d).inventory_name = d.inventory_name) ∧
      (truthy desc = true → (applyUpd name desc d).description = desc.getD "") ∧
      (truthy desc = false → (applyUpd name desc d).description = d.description) ∧
      (applyUpd name desc d).photo = d.photo ∧ (applyUpd name desc d).id = d.id) := by
  constructor
  · intro hfind
    refine ⟨?_, ?_, ?_, ?_⟩ <;> simp [memUpdate, sqlUpdate, hfind]
  · intro d hfind
    obtain ⟨l1, l2, hds, hl1, hdid⟩ := findDev_split hfind
    have hid' : (applyUpd name desc d).id = id := by rw [applyUpd_id]; exact hdid
    have hfindmem : findDev id (updFirst id (applyUpd name desc) s.devices)
        = some (applyUpd name desc d) := by
      rw [hds, updFirst_append hl1 hdid, findDev_append_of_none hl1, findDev, if_pos hid']
    have hfindsql : findDev id
        (s.devices.map (fun e => if e.id = id then applyUpd name desc e else e))
        = some (applyUpd name desc d) := by
      rw [hds, List.map_append, List.map_cons, if_pos hdid, map_cond_id hl1,
        findDev_append_of_none hl1, findDev, if_pos hid']
    refine ⟨?_, ?_, ?_, ?_, ?_, ?_, ?_, ?_, ?_, ?_, ?_, ?_⟩
    · simp [memUpdate, hfind]
    · simp [sqlUpdate, hfind]
    · simp only [memUpdate, hfind]
      exact hfindmem
    · simp only [sqlUpdate, hfind]
      exact hfindsql
    · simp [memUpdate, hfind]
    · simp [sqlUpdate, hfind]
    · intro ht; simp [applyUpd_name, ht]
    · intro ht; simp [applyUpd_name, ht]
    · intro ht; simp [applyUpd_desc, ht]
    · intro ht; simp [applyUpd_desc, ht]
    · exact applyUpd_photo name desc d
    · exact applyUpd_id name desc d

/-- C7, witness: updating item 1 with a new name and an empty description:
the name is replaced, the non-empty stored description survives, photo and
id are untouched, in both variants. -/
theorem c7_update_fields_witness :
    findDev 1 (⟨[⟨1, "Laptop", "olddesc", some "a"⟩], 2, ["a"]⟩ : St).devices =
      some ⟨1, "Laptop", "olddesc", some "a"⟩ ∧
    (memUpdate 1 (some "Dell") (some "") ⟨[⟨1, "Laptop", "olddesc", some "a"⟩], 2, ["a"]⟩).resp.status = 200 ∧
    findDev 1 (memUpdate 1 (some "Dell") (some "")
      ⟨[⟨1, "Laptop", "olddesc", some "a"⟩], 2, ["a"]⟩).st.devices =
      some ⟨1, "Dell", "olddesc", some "a"⟩ ∧
    findDev 1 (sqlUpdate 1 (some "Dell") (some "")
      ⟨[⟨1, "Laptop", "olddesc", some "a"⟩], 2, ["a"]⟩).st.devices =
      some ⟨1, "Dell", "olddesc", some "a"⟩ := by
  have h := (c7_update_fields 1 (some "Dell") (some "")
    ⟨[⟨1, "Laptop", "olddesc", some "a"⟩], 2, ["a"]⟩).2
    ⟨1, "Laptop", "olddesc", some "a"⟩ (by decide)
  refine ⟨by decide, h.1, ?_, ?_⟩
  · rw [h.2.2.1]
    decide
  · rw [h.2.2.2.1]
    decide

theorem findDevJ_eq_none {v : JsNum} {ds : List Item} :
    findDevJ v ds = none ↔ ∀ d ∈ ds, jsNumMatches v d.id = false := by
  induction ds with
  | nil => simp [findDevJ]
  | cons d t ih => by_cases h : jsNumMatches v d.id = true <;> simp [findDevJ, h, ih]

/-- C8: SearchById fails with 400 when the input does not convert to a
number (NaN), fails with 404 — distinct from the validation failure — when
it converts to a number that strictly equals no item id (including
non-integer numbers such as fractions and infinities, which equal no
integer id), and returns the found item (status 201) without the raw
storage path (no photo key) when an item matches, in both variants. -/
theorem c8_search_by_id (idf : Option String) (s : St) :
    (jsNum idf = none →
      (memSearch idf s).status = 400 ∧ (sqlSearch idf s).status = 400) ∧
    (∀ v, jsNum idf = some v → (∀ d ∈ s.devices, jsNumMatches v d.id = false) →
      (memSearch idf s).status = 404 ∧ (sqlSearch idf s).status = 404) ∧
    (∀ v d, jsNum idf = some v → findDevJ v s.devices = some d →
      (memSearch idf s).status = 201 ∧ (sqlSearch idf s).status = 201 ∧
      respHasKey "photo" (memSearch idf s) = false ∧
      respHasKey "photo" (sqlSearch idf s) = false) := by
  refine ⟨?_, ?_, ?_⟩
  · intro h
    exact ⟨by simp [memSearch, h], by simp [sqlSearch, h]⟩
  · intro v h hall
    have hnone : findDevJ v s.devices = none := findDevJ_eq_none.mpr hall
    exact ⟨by simp [memSearch, h, hnone], by simp [sqlSearch, h, hnone]⟩
  · intro v d h hfind
    refine ⟨by simp [memSearch, h, hfind], by simp [sqlSearch, h, hfind], ?_, ?_⟩
    · cases hdp : d.photo <;>
        simp [memSearch, h, hfind, hdp, respHasKey, hasKey]
    · simp [sqlSearch, h, hfind, respHasKey, hasKey]

/-- C8, witness: the search theorem applied to the one-item state for a
non-numeric input ("abc", NaN), a fractional input ("1.5", a number that is
no integer id, hence 404 rather than 400), an integer input matching no
item ("999999"), and two inputs that convert to the valid id 1 ("1" and the
hex literal "0x1"). -/
theorem c8_search_by_id_witness :
    (memSearch (some "abc") wSt).status = 400 ∧
    (sqlSearch (some "abc") wSt).status = 400 ∧
    (memSearch (some "1.5") wSt).status = 404 ∧
    (sqlSearch (some "1.5") wSt).status = 404 ∧
    (memSearch (some "999999") wSt).status = 404 ∧
    (sqlSearch (some "999999") wSt).status = 404 ∧
    (memSearch (some "1") wSt).status = 201 ∧
    (memSearch (some "0x1") wSt).status = 201 ∧
    respHasKey "photo" (memSearch (some "1") wSt) = false ∧
    respHasKey "photo" (sqlSearch (some "1") wSt) = false := by
  have h1 := (c8_search_by_id (some "abc") wSt).1 (by decide)
  have h2 := (c8_search_by_id (some "1.5") wSt).2.1 JsNum.nonInt (by decide) (by decide)
  have h3 := (c8_search_by_id (some "999999") wSt).2.1 (JsNum.intVal 999999)
    (by decide) (by decide)
  have h4 := (c8_search_by_id (some "1") wSt).2.2 (JsNum.intVal 1)
    ⟨1, "Laptop", "", some "a"⟩ (by decide) (by decide)
  have h5 := (c8_search_by_id (some "0x1") wSt).2.2 (JsNum.intVal 1)
    ⟨1, "Laptop", "", some "a"⟩ (by decide) (by decide)
  exact ⟨h1.1, h1.2, h2.1, h2.2, h3.1, h3.2, h4.1, h5.1, h4.2.2.1, h4.2.2.2⟩

/-- C9, counterexample: the claim says every defined path answers
unsupported methods with 405 plus an Allow header, but neither variant
registers an app.all fallback for /search: a GET on /search matches no
route and falls through to the framework default (a plain 404), not a 405
with an Allow header. -/
theorem c9_counterexample :
    dispatch Method.GET RPath.search = RouteResult.fallthrough ∧
    fallbackStatus (dispatch Method.GET RPath.search) = some 404 := by
  decide

/-- C9 (amended): on /register every method other than POST — HEAD and
OPTIONS included, since the app.all fallback catches them — is answered 405
with Allow POST.  On /inventory, /inventory/:id and /inventory/:id/photo
the app.all fallback answers every method outside the supported set with
405 and the Allow list, except that HEAD is served by the GET handler
(Express aliases HEAD to GET), so it is not a 405.  /search has no
fallback: POST is handled, OPTIONS receives the Express default 200 with an
Allow header, and every other method (HEAD included) falls through to the
framework default 404 with no Allow header. -/
theorem c9_method_not_allowed_amended (m : Method) :
    (m ≠ Method.POST →
      dispatch m RPath.register = RouteResult.methodNotAllowed "POST" ∧
      fallbackStatus (dispatch m RPath.register) = some 405) ∧
    (m = Method.GET ∨ m = Method.HEAD → dispatch m RPath.inventory = RouteResult.handled) ∧
    (m ≠ Method.GET → m ≠ Method.HEAD →
      dispatch m RPath.inventory = RouteResult.methodNotAllowed "GET" ∧
      fallbackStatus (dispatch m RPath.inventory) = some 405) ∧
    (m ≠ Method.GET → m ≠ Method.HEAD → m ≠ Method.PUT → m ≠ Method.DELETE →
      dispatch m RPath.inventoryId = RouteResult.methodNotAllowed "GET, PUT, DELETE" ∧
      fallbackStatus (dispatch m RPath.inventoryId) = some 405) ∧
    (m ≠ Method.GET → m ≠ Method.HEAD → m ≠ Method.PUT →
      dispatch m RPath.inventoryIdPhoto = RouteResult.methodNotAllowed "GET, PUT" ∧
      fallbackStatus (dispatch m RPath.inventoryIdPhoto) = some 405) ∧
    (m = Method.OPTIONS →
      dispatch m RPath.search = RouteResult.optionsDefault "POST" ∧
      fallbackStatus (dispatch m RPath.search) = some 200) ∧
    (m ≠ Method.POST → m ≠ Method.OPTIONS →
      dispatch m RPath.search = RouteResult.fallthrough ∧
      fallbackStatus (dispatch m RPath.search) = some 404) := by
  cases m <;> exact ⟨by decide, by decide, by decide, by decide, by decide, by decide, by decide⟩

/-- C9 (amended), witness: the dispatch theorem applied to PATCH (caught by
the 405 fallbacks), HEAD (served by the GET handler on /inventory, falling
through on /search) and OPTIONS (Express default response on /search). -/
theorem c9_method_not_allowed_amended_witness :
    dispatch Method.PATCH RPath.register = RouteResult.methodNotAllowed "POST" ∧
    dispatch Method.HEAD RPath.inventory = RouteResult.handled ∧
    dispatch Method.PATCH RPath.inventoryId = RouteResult.methodNotAllowed "GET, PUT, DELETE" ∧
    dispatch Method.PATCH RPath.inventoryIdPhoto = RouteResult.methodNotAllowed "GET, PUT" ∧
    dispatch Method.OPTIONS RPath.search = RouteResult.optionsDefault "POST" ∧
    fallbackStatus (dispatch Method.OPTIONS RPath.search) = some 200 ∧
    dispatch Method.HEAD RPath.search = RouteResult.fallthrough := by
  have hp := c9_method_not_allowed_amended Method.PATCH
  have hh := c9_method_not_allowed_amended Method.HEAD
  have ho := c9_method_not_allowed_amended Method.OPTIONS
  exact ⟨(hp.1 (by decide)).1, hh.2.1 (Or.inr rfl),
    (hp.2.2.2.1 (by decide) (by decide) (by decide) (by decide)).1,
    (hp.2.2.2.2.1 (by decide) (by decide) (by decide)).1,
    (ho.2.2.2.2.2.1 rfl).1, (ho.2.2.2.2.2.1 rfl).2,
    (hh.2.2.2.2.2.2 (by decide) (by decide)).1⟩

/-- C10: for an item whose photo reference is set, the success responses of
GetById carry the raw storage path under the photo key alongside the
derived photo_url, and the success responses of UpdateFields carry the raw
path under the photo key (with no photo_url at all), in both variants;
SearchById responses never carry a photo key. -/
theorem c10_internal_path_leak (id : Nat) (s : St) (d : Item) (p : String)
    (hd : findDev id s.devices = some d) (hp : d.photo = some p) :
    respLookup "photo" (memGetById id s) = some (JVal.str p) ∧
    respLookup "photo_url" (memGetById id s) = some (JVal.str (photoUrl d.id)) ∧
    respLookup "photo" (sqlGetById id s) = some (JVal.str p) ∧
    respLookup "photo_url" (sqlGetById id s) = some (JVal.str (photoUrl d.id)) ∧
    (∀ name desc,
      respLookup "photo" (memUpdate id name desc s).resp = some (JVal.str p) ∧
      respHasKey "photo_url" (memUpdate id name desc s).resp = false) ∧
    (∀ name desc,
      respLookup "photo" (sqlUpdate id name desc s).resp = some (JVal.str p) ∧
      respHasKey "photo_url" (sqlUpdate id name desc s).resp = false) ∧
    (∀ idf v d', jsNum idf = some v → findDevJ v s.devices = some d' →
      respHasKey "photo" (memSearch idf s) = false ∧
      respHasKey "photo" (sqlSearch idf s) = false) := by
  obtain ⟨l1, l2, hds, hl1, hdid⟩ := findDev_split hd
  have hupd : ∀ name desc, findDev id
      (s.devices.map (fun e => if e.id = id then applyUpd name desc e else e))
      = some (applyUpd name desc d) := by
    intro name desc
    have hid' : (applyUpd name desc d).id = id := by rw [applyUpd_id]; exact hdid
    rw [hds, List.map_append, List.map_cons, if_pos hdid, map_cond_id hl1,
      findDev_append_of_none hl1, findDev, if_pos hid']
  refine ⟨?_, ?_, ?_, ?_, ?_, ?_, ?_⟩
  · simp [memGetById, hd, respLookup, lookupJ, itemJ, photoJ, hp]
  · simp [memGetById, hd, respLookup, lookupJ, itemJ, photoJ, hp, photoUrlJ]
  · simp [sqlGetById, hd, respLookup, lookupJ, itemJ, photoJ, hp]
  · simp [sqlGetById, hd, respLookup, lookupJ, itemJ, photoJ, hp, photoUrlJ]
  · intro name desc
    constructor
    · simp [memUpdate, hd, respLookup, lookupJ, itemJ, photoJ, applyUpd_photo, hp]
    · simp [memUpdate, hd, respHasKey, hasKey, itemJ]
  · intro name desc
    constructor
    · simp only [sqlUpdate, hd, hupd name desc, respLookup]
      simp [lookupJ, itemJ, photoJ, applyUpd_photo, hp]
    · simp only [sqlUpdate, hd, hupd name desc, respHasKey]
      simp [hasKey, itemJ]
  · intro idf v d' hv hfind
    constructor
    · cases hdp : d'.photo <;> simp [memSearch, hv, hfind, hdp, respHasKey, hasKey]
    · simp [sqlSearch, hv, hfind, respHasKey, hasKey]

/-- C10, witness: the leak theorem applied to item 1 of the one-item state,
with a concrete UpdateFields and a concrete search by id 1. -/
theorem c10_internal_path_leak_witness :
    findDev 1 wSt.devices = some ⟨1, "Laptop", "", some "a"⟩ ∧
    respLookup "photo" (memGetById 1 wSt) = some (JVal.str "a") ∧
    respLookup "photo" (sqlGetById 1 wSt) = some (JVal.str "a") ∧
    respLookup "photo" (memUpdate 1 (some "Dell") none wSt).resp = some (JVal.str "a") ∧
    respLookup "photo" (sqlUpdate 1 (some "Dell") none wSt).resp = some (JVal.str "a") ∧
    respHasKey "photo" (memSearch (some "1") wSt) = false := by
  have h := c10_internal_path_leak 1 wSt ⟨1, "Laptop", "", some "a"⟩ "a" (by decide) rfl
  exact ⟨by decide, h.1, h.2.2.1, (h.2.2.2.2.1 (some "Dell") none).1,
    (h.2.2.2.2.2.1 (some "Dell") none).1,
    (h.2.2.2.2.2.2 (some "1") (JsNum.intVal 1) ⟨1, "Laptop", "", some "a"⟩
      (by decide) (by decide)).1⟩

end Inventory
